import Mathlib

/-!
Verification development for the sappyduck chess engine core
(src/defs.rs, src/movepick.rs, src/movegen.rs, src/time_control.rs).

Shallow embedding conventions:
- u64 bitboards are natural numbers; left shifts are reduced mod 2^64 and
  bitwise complement is XOR against the all-ones 64-bit mask, exactly as in
  the Rust u64 semantics.  Board masks coming from the external chess crate
  are 64-bit values; universally quantified theorems hold for all naturals
  and in particular for all 64-bit masks.
- f64 evaluation arithmetic is modelled exactly by rationals.  Every numeric
  constant in the source is a small decimal, so the rational model matches
  the intent of the arithmetic; f64 INFINITY sentinels are modelled by the
  top and bottom elements of WithBot (WithTop Rat).
- The external board service (the chess crate: parsing, legal move
  generation, move application, check detection) is an explicit parameter, a
  Service structure; the board representation itself (per piece and per
  color 64-bit occupancy masks plus side to move) is concrete, since the
  core reads exactly these masks through the crate interface.
-/

/-- The two piece colors, as in the chess crate (White = index 0, Black = 1). -/
inductive Color where
  | White
  | Black
deriving DecidableEq, Repr, BEq

/-- The Not impl on chess crate colors (the !color operator). -/
def Color.flip : Color → Color
  | .White => .Black
  | .Black => .White

/-- The six piece kinds of the chess crate. -/
inductive Piece where
  | Pawn
  | Knight
  | Bishop
  | Rook
  | Queen
  | King
deriving DecidableEq, Repr, BEq

/-- Game phases from defs.rs. -/
inductive GamePhase where
  | Opening
  | Middlegame
  | Threshold
  | Endgame
deriving DecidableEq, Repr

-- 64-bit helpers ------------------------------------------------------------

def mask64 : ℕ := 2 ^ 64 - 1

/-- u64 left shift (wraps mod 2^64). -/
def shl64 (x k : ℕ) : ℕ := (x <<< k) % 2 ^ 64

/-- u64 bitwise complement. -/
def not64 (x : ℕ) : ℕ := mask64 ^^^ x

/-- u64 trailing_zeros for a nonzero word: index of the least significant set bit
(64 when no bit below 64 is set, as in Rust). -/
def lsb64 (x : ℕ) : ℕ := ((List.range 64).find? (fun i => x.testBit i)).getD 64

/-- u64 popcnt restricted to the low 64 bits, as the chess crate popcnt. -/
def popcnt (x : ℕ) : ℕ := (List.range 64).countP (fun i => x.testBit i)

-- Core constants (defs.rs) ---------------------------------------------------

def FEN_START_moveless : ℕ := 0 -- the FEN string itself lives in the protocol layer
def PIECE_TYPES : ℕ := 6
def SQUARES : ℕ := 64

def FILE_A : ℕ := 0x0101010101010101
def FILE_B : ℕ := 0x0202020202020202
def FILE_G : ℕ := 0x4040404040404040
def FILE_H : ℕ := 0x8080808080808080

def RANK_2 : ℕ := 0x000000000000FF00
def RANK_7 : ℕ := 0x00FF000000000000

def OPENING_MOVES : ℕ := 20

def QUEEN_VALUE_NORMAL : ℚ := 9.5
def QUEEN_VALUE_THRESHOLD_ADVANTAGE : ℚ := 9.4
def QUEEN_VALUE_SECOND_QUEEN : ℚ := 8.7

def FIRST_ROOK_OPENING : ℚ := 5.63
def FIRST_ROOK_MIDDLEGAME : ℚ := 5.73
def FIRST_ROOK_THRESHOLD : ℚ := 5.73
def FIRST_ROOK_ENDGAME : ℚ := 6.13

def SECOND_ROOK_OPENING : ℚ := 5.63
def SECOND_ROOK_MIDDLEGAME : ℚ := 5.53
def SECOND_ROOK_THRESHOLD : ℚ := 5.93
def SECOND_ROOK_ENDGAME : ℚ := 6.03

def BISHOP_VALUE : ℚ := 3.33
def BISHOP_PAIR_MIDDLEGAME : ℚ := 0.3
def BISHOP_PAIR_THRESHOLD : ℚ := 0.4
def BISHOP_PAIR_ENDGAME : ℚ := 0.5

def KNIGHT_VALUE_OPENING : ℚ := 3.25
def KNIGHT_VALUE_MIDDLEGAME : ℚ := 3.2
def KNIGHT_VALUE_THRESHOLD : ℚ := 3.2
def KNIGHT_VALUE_ENDGAME : ℚ := 3.2

def PAWN_VALUE_OPENING : ℚ := 1.0
def PAWN_VALUE_MIDDLEGAME : ℚ := 0.8
def PAWN_VALUE_THRESHOLD : ℚ := 0.9
def PAWN_VALUE_ENDGAME : ℚ := 1.0

-- KING_VALUE = f64::INFINITY is modelled where it is consumed: the king never
-- appears in the value loops that feed finite arithmetic (see
-- get_piece_value_on_square, which skips the king), and get_piece_base_value
-- returns a WithTop Rat so the infinite king value is representable.

def BACK_RANK_MATE_BONUS : ℚ := 5.0
def SMOTHERED_MATE_BONUS : ℚ := 4.0

-- Board model ----------------------------------------------------------------

/-- The board state as the core reads it through the chess crate interface:
one 64-bit occupancy mask per piece kind (both colors merged), one per color,
and the side to move.  Castling and en passant state exist in the crate but
are never read by the evaluation or search core. -/
structure Board where
  pawns : ℕ
  knights : ℕ
  bishops : ℕ
  rooks : ℕ
  queens : ℕ
  kings : ℕ
  white : ℕ
  black : ℕ
  sideToMove : Color
deriving DecidableEq, Repr

/-- board.pieces(piece) of the chess crate. -/
def Board.pieces (b : Board) : Piece → ℕ
  | .Pawn => b.pawns
  | .Knight => b.knights
  | .Bishop => b.bishops
  | .Rook => b.rooks
  | .Queen => b.queens
  | .King => b.kings

/-- board.color_combined(color) of the chess crate. -/
def Board.color_combined (b : Board) : Color → ℕ
  | .White => b.white
  | .Black => b.black

/-- The same piece placement with only the side to move flipped. -/
def Board.flipSTM (b : Board) : Board :=
  { b with sideToMove := b.sideToMove.flip }

-- Attack tables (defs.rs, lazy_static block).  The source builds one array
-- entry per square by the formulas below; we embed the entry at square sq as
-- a function of sq.

/-- PAWN_ATTACKS from defs.rs (per color, per square). -/
def PAWN_ATTACKS (c : Color) (sq : ℕ) : ℕ :=
  let bb := shl64 1 sq
  match c with
  | .White => (shl64 bb 7 &&& not64 FILE_A) ||| (shl64 bb 9 &&& not64 FILE_H)
  | .Black => ((bb >>> 7) &&& not64 FILE_H) ||| ((bb >>> 9) &&& not64 FILE_A)

/-- KNIGHT_ATTACKS from defs.rs. -/
def KNIGHT_ATTACKS (sq : ℕ) : ℕ :=
  let bb := shl64 1 sq
  (shl64 bb 17 &&& not64 FILE_A) |||
  (shl64 bb 15 &&& not64 FILE_H) |||
  (shl64 bb 10 &&& not64 (FILE_A ||| FILE_B)) |||
  (shl64 bb 6 &&& not64 (FILE_G ||| FILE_H)) |||
  ((bb >>> 6) &&& not64 (FILE_A ||| FILE_B)) |||
  ((bb >>> 10) &&& not64 (FILE_G ||| FILE_H)) |||
  ((bb >>> 15) &&& not64 FILE_A) |||
  ((bb >>> 17) &&& not64 FILE_H)

/-- KING_ATTACKS from defs.rs. -/
def KING_ATTACKS (sq : ℕ) : ℕ :=
  let bb := shl64 1 sq
  (shl64 bb 8 ||| (bb >>> 8)) |||
  (shl64 bb 1 &&& not64 FILE_A) |||
  ((bb >>> 1) &&& not64 FILE_H) |||
  (shl64 bb 7 &&& not64 FILE_H) |||
  (shl64 bb 9 &&& not64 FILE_A) |||
  ((bb >>> 7) &&& not64 FILE_A) |||
  ((bb >>> 9) &&& not64 FILE_H)

/-- BISHOP_ATTACKS from defs.rs: diagonal rays with explicit board-edge guards. -/
def BISHOP_ATTACKS (sq : ℕ) : ℕ :=
  let rank := sq / 8
  let file := sq % 8
  (List.range 7).foldl (fun bb j =>
    let i := j + 1
    let bb := if rank + i < 8 ∧ file + i < 8 then bb ||| (1 <<< (sq + i * 9)) else bb
    let bb := if rank + i < 8 ∧ i ≤ file then bb ||| (1 <<< (sq + i * 7)) else bb
    let bb := if i ≤ rank ∧ file + i < 8 then bb ||| (1 <<< (sq - i * 7)) else bb
    if i ≤ rank ∧ i ≤ file then bb ||| (1 <<< (sq - i * 9)) else bb) 0

/-- ROOK_ATTACKS from defs.rs: horizontal and vertical rays with edge guards. -/
def ROOK_ATTACKS (sq : ℕ) : ℕ :=
  let rank := sq / 8
  let file := sq % 8
  (List.range 7).foldl (fun bb j =>
    let i := j + 1
    let bb := if file + i < 8 then bb ||| (1 <<< (sq + i)) else bb
    let bb := if i ≤ file then bb ||| (1 <<< (sq - i)) else bb
    let bb := if rank + i < 8 then bb ||| (1 <<< (sq + i * 8)) else bb
    if i ≤ rank then bb ||| (1 <<< (sq - i * 8)) else bb) 0

/-- QUEEN_ATTACKS = bishop union rook. -/
def QUEEN_ATTACKS (sq : ℕ) : ℕ := BISHOP_ATTACKS sq ||| ROOK_ATTACKS sq

/-- KING_SAFETY_MASK from defs.rs (same adjacency pattern as KING_ATTACKS). -/
def KING_SAFETY_MASK (sq : ℕ) : ℕ :=
  let king_bb := shl64 1 sq
  (shl64 king_bb 8 ||| (king_bb >>> 8) |||
   (shl64 king_bb 1 &&& not64 FILE_A) |||
   ((king_bb >>> 1) &&& not64 FILE_H) |||
   (shl64 king_bb 7 &&& not64 FILE_H) |||
   (shl64 king_bb 9 &&& not64 FILE_A) |||
   ((king_bb >>> 7) &&& not64 FILE_A) |||
   ((king_bb >>> 9) &&& not64 FILE_H))

-- defs.rs function implementations -------------------------------------------

/-- is_original_position from defs.rs: both initial queens still on board. -/
def is_original_position (board : Board) : Bool :=
  popcnt (board.pieces .Queen &&&
    (board.color_combined .White ||| board.color_combined .Black)) == 2

/-- detect_game_phase from defs.rs.  The two source arms for (1, 1) queens
(guarded by is_original_position and unguarded) both yield Middlegame. -/
def detect_game_phase (board : Board) (move_count : ℕ) : GamePhase :=
  if move_count ≤ OPENING_MOVES then .Opening
  else
    let white_queens := popcnt (board.pieces .Queen &&& board.color_combined .White)
    let black_queens := popcnt (board.pieces .Queen &&& board.color_combined .Black)
    match white_queens, black_queens with
    | 1, 1 => .Middlegame
    | 1, 0 => .Threshold
    | 0, 1 => .Threshold
    | 0, 0 => .Endgame
    | _, _ => .Middlegame
/-- MG_PAWN_TABLE from defs.rs. -/
def MG_PAWN_TABLE : List ℚ :=
  [0.0, 0.0, 0.0, 0.0, 0.0, 0.0, 0.0, 0.0,
   0.98, 1.34, 0.61, 0.95, 0.68, 1.26, 0.34, -0.11,
   -0.06, 0.07, 0.26, 0.31, 0.65, 0.56, 0.25, -0.20,
   -0.14, 0.13, 0.06, 0.21, 0.23, 0.12, 0.17, -0.23,
   -0.27, -0.02, -0.05, 0.12, 0.17, 0.06, 0.10, -0.25,
   -0.26, -0.04, -0.04, -0.10, 0.03, 0.03, 0.33, -0.12,
   -0.35, -0.01, -0.20, -0.23, -0.15, 0.24, 0.38, -0.22,
   0.0, 0.0, 0.0, 0.0, 0.0, 0.0, 0.0, 0.0]

/-- EG_PAWN_TABLE from defs.rs. -/
def EG_PAWN_TABLE : List ℚ :=
  [0.0, 0.0, 0.0, 0.0, 0.0, 0.0, 0.0, 0.0,
   1.78, 1.73, 1.58, 1.34, 1.47, 1.32, 1.65, 1.87,
   0.94, 1.00, 0.85, 0.67, 0.56, 0.53, 0.82, 0.84,
   0.32, 0.24, 0.13, 0.05, -0.02, 0.04, 0.17, 0.17,
   0.13, 0.09, -0.03, -0.07, -0.07, -0.08, 0.03, -0.01,
   0.04, 0.07, -0.06, 0.01, 0.0, -0.05, -0.01, -0.08,
   0.13, 0.08, 0.08, 0.10, 0.13, 0.0, 0.02, -0.07,
   0.0, 0.0, 0.0, 0.0, 0.0, 0.0, 0.0, 0.0]

/-- MG_KNIGHT_TABLE from defs.rs. -/
def MG_KNIGHT_TABLE : List ℚ :=
  [-1.67, -0.89, -0.34, -0.49, 0.61, -0.97, -0.15, -1.07,
   -0.73, -0.41, 0.72, 0.36, 0.23, 0.62, 0.07, -0.17,
   -0.47, 0.60, 0.37, 0.65, 0.84, 1.29, 0.73, 0.44,
   -0.09, 0.17, 0.19, 0.53, 0.37, 0.69, 0.18, 0.22,
   -0.13, 0.04, 0.16, 0.13, 0.28, 0.19, 0.21, -0.08,
   -0.23, -0.09, 0.12, 0.10, 0.19, 0.17, 0.25, -0.16,
   -0.29, -0.53, -0.12, -0.03, -0.01, 0.18, -0.14, -0.19,
   -1.05, -0.21, -0.58, -0.33, -0.17, -0.28, -0.19, -0.23]

/-- EG_KNIGHT_TABLE from defs.rs. -/
def EG_KNIGHT_TABLE : List ℚ :=
  [-0.58, -0.38, -0.13, -0.28, -0.31, -0.27, -0.63, -0.99,
   -0.25, -0.08, -0.25, -0.02, -0.09, -0.25, -0.24, -0.52,
   -0.24, -0.20, 0.10, 0.09, -0.01, -0.09, -0.19, -0.41,
   -0.17, 0.03, 0.22, 0.22, 0.22, 0.11, 0.08, -0.18,
   -0.18, -0.06, 0.16, 0.25, 0.16, 0.17, 0.04, -0.18,
   -0.23, -0.03, -0.01, 0.15, 0.10, -0.03, -0.20, -0.22,
   -0.42, -0.20, -0.10, -0.05, -0.02, -0.20, -0.23, -0.44,
   -0.29, -0.51, -0.23, -0.15, -0.22, -0.18, -0.50, -0.64]

/-- MG_BISHOP_TABLE from defs.rs. -/
def MG_BISHOP_TABLE : List ℚ :=
  [-0.29, 0.04, -0.82, -0.37, -0.25, -0.42, 0.07, -0.08,
   -0.26, 0.16, -0.18, -0.13, 0.30, 0.59, 0.18, -0.47,
   -0.16, 0.37, 0.43, 0.40, 0.35, 0.50, 0.37, -0.02,
   -0.04, 0.05, 0.19, 0.50, 0.37, 0.37, 0.07, -0.02,
   -0.06, 0.13, 0.13, 0.26, 0.34, 0.12, 0.10, 0.04,
   0.0, 0.15, 0.15, 0.15, 0.14, 0.27, 0.18, 0.10,
   0.04, 0.15, 0.16, 0.0, 0.07, 0.21, 0.33, 0.01,
   -0.33, -0.03, -0.14, -0.21, -0.13, -0.12, -0.39, -0.21]

/-- EG_BISHOP_TABLE from defs.rs. -/
def EG_BISHOP_TABLE : List ℚ :=
  [-0.14, -0.21, -0.11, -0.08, -0.07, -0.09, -0.17, -0.24,
   -0.08, -0.04, 0.07, -0.12, -0.03, -0.13, -0.04, -0.14,
   0.02, -0.08, 0.0, -0.01, -0.02, 0.06, 0.0, 0.04,
   -0.03, 0.09, 0.12, 0.09, 0.14, 0.10, 0.03, 0.02,
   -0.06, 0.03, 0.13, 0.19, 0.07, 0.10, -0.03, -0.09,
   -0.12, -0.03, 0.08, 0.10, 0.13, 0.03, -0.07, -0.15,
   -0.14, -0.18, -0.07, -0.01, 0.04, -0.09, -0.15, -0.27,
   -0.23, -0.09, -0.23, -0.05, -0.09, -0.16, -0.05, -0.17]

/-- MG_ROOK_TABLE from defs.rs. -/
def MG_ROOK_TABLE : List ℚ :=
  [0.32, 0.42, 0.32, 0.51, 0.63, 0.09, 0.31, 0.43,
   0.27, 0.32, 0.58, 0.62, 0.80, 0.67, 0.26, 0.44,
   -0.05, 0.19, 0.26, 0.36, 0.17, 0.45, 0.61, 0.16,
   -0.24, -0.11, 0.07, 0.26, 0.24, 0.35, -0.08, -0.20,
   -0.36, -0.26, -0.12, -0.01, 0.09, -0.07, 0.06, -0.23,
   -0.45, -0.25, -0.16, -0.17, 0.03, 0.00, -0.05, -0.33,
   -0.44, -0.16, -0.20, -0.09, -0.01, 0.11, -0.06, -0.71,
   -0.19, -0.13, 0.01, 0.17, 0.16, 0.07, -0.37, -0.26]

/-- EG_ROOK_TABLE from defs.rs. -/
def EG_ROOK_TABLE : List ℚ :=
  [0.13, 0.10, 0.18, 0.15, 0.12, 0.12, 0.08, 0.05,
   0.11, 0.13, 0.13, 0.11, -0.03, 0.03, 0.08, 0.03,
   0.07, 0.07, 0.07, 0.05, 0.04, -0.03, -0.05, -0.03,
   0.04, 0.03, 0.13, 0.01, 0.02, 0.01, -0.01, 0.02,
   0.03, 0.05, 0.08, 0.04, -0.05, -0.06, -0.08, -0.11,
   -0.04, 0.00, -0.05, -0.01, -0.07, -0.12, -0.08, -0.16,
   -0.06, -0.06, 0.00, 0.02, -0.09, -0.09, -0.11, -0.03,
   -0.09, 0.02, 0.03, -0.01, -0.05, -0.13, 0.04, -0.20]

/-- MG_QUEEN_TABLE from defs.rs. -/
def MG_QUEEN_TABLE : List ℚ :=
  [-0.28, 0.00, 0.29, 0.12, 0.59, 0.44, 0.43, 0.45,
   -0.24, -0.39, -0.05, 0.01, -0.16, 0.57, 0.28, 0.54,
   -0.13, -0.17, 0.07, 0.08, 0.29, 0.56, 0.47, 0.57,
   -0.27, -0.27, -0.16, -0.16, -0.01, 0.17, -0.02, 0.01,
   -0.09, -0.26, -0.09, -0.10, -0.02, -0.04, 0.03, -0.03,
   -0.14, 0.02, -0.11, -0.02, -0.05, 0.02, 0.14, 0.05,
   -0.35, -0.08, 0.11, 0.02, 0.08, 0.15, -0.03, 0.01,
   -0.01, -0.18, -0.09, 0.10, -0.15, -0.25, -0.31, -0.50]

/-- EG_QUEEN_TABLE from defs.rs. -/
def EG_QUEEN_TABLE : List ℚ :=
  [-0.09, 0.22, 0.22, 0.27, 0.27, 0.19, 0.10, 0.20,
   -0.17, 0.20, 0.32, 0.41, 0.58, 0.25, 0.30, 0.00,
   -0.20, 0.06, 0.09, 0.49, 0.47, 0.35, 0.19, 0.09,
   0.03, 0.22, 0.24, 0.45, 0.57, 0.40, 0.57, 0.36,
   -0.18, 0.28, 0.19, 0.47, 0.31, 0.34, 0.39, 0.23,
   -0.16, -0.27, 0.15, 0.06, 0.09, 0.17, 0.10, 0.05,
   -0.22, -0.23, -0.30, -0.16, -0.16, -0.23, -0.36, -0.32,
   -0.33, -0.28, -0.22, -0.43, -0.05, -0.32, -0.20, -0.41]

/-- MG_KING_TABLE from defs.rs. -/
def MG_KING_TABLE : List ℚ :=
  [-0.65, 0.23, 0.16, -0.15, -0.56, -0.34, 0.02, 0.13,
   0.29, -0.01, -0.20, -0.07, -0.08, -0.04, -0.38, -0.29,
   -0.09, 0.24, 0.02, -0.16, -0.20, 0.06, 0.22, -0.22,
   -0.17, -0.20, -0.12, -0.27, -0.30, -0.25, -0.14, -0.36,
   -0.49, -0.01, -0.27, -0.39, -0.46, -0.44, -0.33, -0.51,
   -0.14, -0.14, -0.22, -0.46, -0.44, -0.30, -0.15, -0.27,
   0.01, 0.07, -0.08, -0.64, -0.43, -0.16, 0.09, 0.08,
   -0.15, 0.36, 0.12, -0.54, 0.08, -0.28, 0.24, 0.14]

/-- EG_KING_TABLE from defs.rs. -/
def EG_KING_TABLE : List ℚ :=
  [-0.74, -0.35, -0.18, -0.18, -0.11, 0.15, 0.04, -0.17,
   -0.12, 0.17, 0.14, 0.17, 0.17, 0.38, 0.23, 0.11,
   0.10, 0.17, 0.23, 0.15, 0.20, 0.45, 0.44, 0.13,
   -0.08, 0.22, 0.24, 0.27, 0.26, 0.33, 0.26, 0.03,
   -0.18, -0.04, 0.21, 0.24, 0.27, 0.23, 0.09, -0.11,
   -0.19, -0.03, 0.11, 0.21, 0.23, 0.16, 0.07, -0.09,
   -0.27, -0.11, 0.04, 0.13, 0.14, 0.04, -0.05, -0.17,
   -0.53, -0.34, -0.21, -0.11, -0.28, -0.14, -0.24, -0.43]

-- Piece value getters (defs.rs) ----------------------------------------------

/-- get_pawn_value from defs.rs. -/
def get_pawn_value : GamePhase → ℚ
  | .Opening => PAWN_VALUE_OPENING
  | .Middlegame => PAWN_VALUE_MIDDLEGAME
  | .Threshold => PAWN_VALUE_THRESHOLD
  | .Endgame => PAWN_VALUE_ENDGAME

/-- get_knight_value from defs.rs. -/
def get_knight_value : GamePhase → ℚ
  | .Opening => KNIGHT_VALUE_OPENING
  | .Middlegame => KNIGHT_VALUE_MIDDLEGAME
  | .Threshold => KNIGHT_VALUE_THRESHOLD
  | .Endgame => KNIGHT_VALUE_ENDGAME

/-- get_bishop_pair_bonus from defs.rs. -/
def get_bishop_pair_bonus : GamePhase → ℚ
  | .Opening => 0.0
  | .Middlegame => BISHOP_PAIR_MIDDLEGAME
  | .Threshold => BISHOP_PAIR_THRESHOLD
  | .Endgame => BISHOP_PAIR_ENDGAME

/-- get_rook_value from defs.rs. -/
def get_rook_value (phase : GamePhase) (is_first_rook : Bool) : ℚ :=
  match phase, is_first_rook with
  | .Opening, true => FIRST_ROOK_OPENING
  | .Middlegame, true => FIRST_ROOK_MIDDLEGAME
  | .Threshold, true => FIRST_ROOK_THRESHOLD
  | .Endgame, true => FIRST_ROOK_ENDGAME
  | .Opening, false => SECOND_ROOK_OPENING
  | .Middlegame, false => SECOND_ROOK_MIDDLEGAME
  | .Threshold, false => SECOND_ROOK_THRESHOLD
  | .Endgame, false => SECOND_ROOK_ENDGAME

/-- flip_vertical from defs.rs: XOR with 56 mirrors the rank. -/
def flip_vertical (sq : ℕ) : ℕ := sq ^^^ 56

/-- get_piece_square_value from defs.rs.  Table entries outside 0..63 cannot
occur (flip_vertical maps 0..63 to itself); getD only supplies the same 0.0
default the source would never reach. -/
def get_piece_square_value (piece : Piece) (square : ℕ) (color : Color)
    (phase : GamePhase) : ℚ :=
  let sq := if color = .Black then flip_vertical square else square
  match piece, phase with
  | .Pawn, .Middlegame => MG_PAWN_TABLE.getD sq 0
  | .Pawn, .Endgame => EG_PAWN_TABLE.getD sq 0
  | .Knight, .Middlegame => MG_KNIGHT_TABLE.getD sq 0
  | .Knight, .Endgame => EG_KNIGHT_TABLE.getD sq 0
  | .Bishop, .Middlegame => MG_BISHOP_TABLE.getD sq 0
  | .Bishop, .Endgame => EG_BISHOP_TABLE.getD sq 0
  | .Rook, .Middlegame => MG_ROOK_TABLE.getD sq 0
  | .Rook, .Endgame => EG_ROOK_TABLE.getD sq 0
  | .Queen, .Middlegame => MG_QUEEN_TABLE.getD sq 0
  | .Queen, .Endgame => EG_QUEEN_TABLE.getD sq 0
  | .King, .Middlegame => MG_KING_TABLE.getD sq 0
  | .King, .Endgame => EG_KING_TABLE.getD sq 0
  | _, _ => 0

-- movepick.rs: phase-dependent base values and square control ----------------

/-- get_piece_base_value from movepick.rs.  The king value is f64 INFINITY in
the source, modelled as the top element of WithTop Rat; every loop that
consumes this function iterates only over the five non-king kinds, for which
the value is finite. -/
def get_piece_base_value (piece : Piece) (phase : GamePhase) : WithTop ℚ :=
  match piece, phase with
  | .Pawn, .Opening => (PAWN_VALUE_OPENING : ℚ)
  | .Pawn, .Middlegame => (PAWN_VALUE_MIDDLEGAME : ℚ)
  | .Pawn, .Threshold => (PAWN_VALUE_THRESHOLD : ℚ)
  | .Pawn, .Endgame => (PAWN_VALUE_ENDGAME : ℚ)
  | .Knight, .Opening => (KNIGHT_VALUE_OPENING : ℚ)
  | .Knight, .Middlegame => (KNIGHT_VALUE_MIDDLEGAME : ℚ)
  | .Knight, .Threshold => (KNIGHT_VALUE_THRESHOLD : ℚ)
  | .Knight, .Endgame => (KNIGHT_VALUE_ENDGAME : ℚ)
  | .Bishop, _ => (BISHOP_VALUE : ℚ)
  | .Rook, .Opening => (FIRST_ROOK_OPENING : ℚ)
  | .Rook, .Middlegame => (FIRST_ROOK_MIDDLEGAME : ℚ)
  | .Rook, .Threshold => (FIRST_ROOK_THRESHOLD : ℚ)
  | .Rook, .Endgame => (FIRST_ROOK_ENDGAME : ℚ)
  | .Queen, .Opening => (QUEEN_VALUE_NORMAL : ℚ)
  | .Queen, .Middlegame => (QUEEN_VALUE_NORMAL : ℚ)
  | .Queen, .Threshold => (QUEEN_VALUE_THRESHOLD_ADVANTAGE : ℚ)
  | .Queen, .Endgame => (QUEEN_VALUE_NORMAL : ℚ)
  | .King, _ => ⊤

/-- The attack-pattern match block shared verbatim by evaluate_square_control
and static_exchange_evaluation in movepick.rs (the wildcard arm of the source
match yields the empty bitboard; it is reachable only for the king, which the
piece loops never visit). -/
def piece_attack_pattern (piece : Piece) (square : ℕ) (color : Color) : ℕ :=
  match piece with
  | .Pawn => PAWN_ATTACKS color square
  | .Knight => KNIGHT_ATTACKS square
  | .Bishop => BISHOP_ATTACKS square
  | .Rook => ROOK_ATTACKS square
  | .Queen => QUEEN_ATTACKS square
  | .King => 0

/-- AttackInfo from movepick.rs. -/
structure AttackInfo where
  attackers : List (Piece × ℕ)
  defenders : List (Piece × ℕ)
  target_value : ℚ
  smallest_attacker : WithTop ℚ
  smallest_defender : WithTop ℚ
deriving Repr

/-- get_piece_value_on_square from movepick.rs: value of the piece occupying
the square under the phase computed with move count 0, skipping the king;
0.0 for an empty square.  The found piece is never the king, so its base
value is finite and untop with default 0 removes only an unreachable case. -/
def get_piece_value_on_square (board : Board) (square : ℕ) : ℚ :=
  let square_bb := 1 <<< square
  let phase := detect_game_phase board 0
  match [Piece.Queen, .Rook, .Bishop, .Knight, .Pawn].find?
      (fun piece => board.pieces piece &&& square_bb != 0) with
  | some piece => (get_piece_base_value piece phase).untop' 0
  | none => 0

/-- evaluate_square_control from movepick.rs.  Note that the source pushes
only into the attackers field; the defenders and smallest_defender fields
keep their initial values through the whole loop. -/
def evaluate_square_control (board : Board) (square : ℕ) (color : Color) :
    AttackInfo :=
  let phase := detect_game_phase board 0
  [Piece.Pawn, .Knight, .Bishop, .Rook, .Queen].foldl (fun info piece =>
    let piece_bb := board.pieces piece &&& board.color_combined color
    let attacks := piece_attack_pattern piece square color
    if piece_bb &&& attacks ≠ 0 then
      let piece_value := get_piece_base_value piece phase
      { info with
        attackers := info.attackers ++ [(piece, square)],
        smallest_attacker := min info.smallest_attacker piece_value }
    else info)
    { attackers := [], defenders := [],
      target_value := get_piece_value_on_square board square,
      smallest_attacker := ⊤, smallest_defender := ⊤ }

/-- SEEResult from movepick.rs. -/
structure SEEResult where
  gain : ℚ
  exchange_sequence : List (Piece × ℕ)
deriving Repr

/-- static_exchange_evaluation from movepick.rs: find the cheapest attacker
(first hit in the pawn-to-queen loop, then break) and score a single
exchange.  The source guard attacker_value < INFINITY is exactly the split
between a found and an absent attacker. -/
def static_exchange_evaluation (board : Board) (square : ℕ)
    (attacking_color : Color) : SEEResult :=
  let target_value := get_piece_value_on_square board square
  let phase := detect_game_phase board 0
  match [Piece.Pawn, .Knight, .Bishop, .Rook, .Queen].find? (fun piece =>
      (board.pieces piece &&& board.color_combined attacking_color) &&&
        piece_attack_pattern piece square attacking_color != 0) with
  | some piece =>
      { gain := target_value - (get_piece_base_value piece phase).untop' 0,
        exchange_sequence := [(piece, square)] }
  | none => { gain := 0, exchange_sequence := [] }

/-- evaluate_attacks from movepick.rs.  When the attackers list is nonempty
the smallest_attacker field is finite, so untop with default 0 only removes
an unreachable case. -/
def evaluate_attacks (board : Board) (square : ℕ) (color : Color) : ℚ :=
  let attack_info := evaluate_square_control board square color
  let defense_info := evaluate_square_control board square color.flip
  if attack_info.attackers = [] then 0
  else
    let attack_value :=
      attack_info.target_value - attack_info.smallest_attacker.untop' 0
    let attacker_bonus : ℚ :=
      if attack_info.attackers.length = 2 then 0.3
      else if attack_info.attackers.length = 3 then 0.5
      else if 4 ≤ attack_info.attackers.length then 0.7
      else 0
    let defense_penalty : ℚ :=
      if ¬ defense_info.defenders = [] then
        -0.1 * (defense_info.defenders.length : ℚ)
      else 0
    let hanging_bonus : ℚ := if defense_info.defenders = [] then 0.3 else 0
    let total_value := attack_value + attacker_bonus + defense_penalty +
      hanging_bonus
    let see_result := static_exchange_evaluation board square color
    let total_value := total_value + see_result.gain
    if ¬ see_result.exchange_sequence = [] ∧ 0 < see_result.gain then
      total_value + 0.2
    else total_value

-- movepick.rs: rook analysis, mate patterns, material, full evaluation -------

/-- RookInfo from movepick.rs. -/
structure RookInfo where
  is_first_rook : Bool
  is_open_file : Bool
  is_semi_open : Bool
  controls_seventh : Bool
deriving Repr

/-- analyze_rook_position from movepick.rs. -/
def analyze_rook_position (board : Board) (square : ℕ) (color : Color) :
    RookInfo :=
  let rook_bb := 1 <<< square
  let own_pawns := board.pieces .Pawn &&& board.color_combined color
  let enemy_pawns := board.pieces .Pawn &&& board.color_combined color.flip
  let file_mask :=
    match square % 8 with
    | 0 => FILE_A
    | 1 => FILE_B
    | 6 => FILE_G
    | 7 => FILE_H
    | _ => shl64 0x0101010101010101 (square % 8)
  let seventh_rank := if color = .White then RANK_7 else RANK_2
  { is_first_rook := true,
    is_open_file := file_mask &&& (own_pawns ||| enemy_pawns) == 0,
    is_semi_open := file_mask &&& own_pawns == 0,
    controls_seventh := rook_bb &&& seventh_rank != 0 }

/-- get_rook_position_bonus from movepick.rs. -/
def get_rook_position_bonus (info : RookInfo) : ℚ :=
  let bonus : ℚ := 0
  let bonus := if info.is_open_file then bonus + 0.3
    else if info.is_semi_open then bonus + 0.15 else bonus
  if info.controls_seventh then bonus + 0.25 else bonus

/-- detect_back_rank_mate from movepick.rs. -/
def detect_back_rank_mate (board : Board) (king_sq : ℕ) (king_color : Color) :
    Bool :=
  let rank := king_sq / 8
  let back_rank := if king_color = .White then 0 else 7
  if rank ≠ back_rank then false
  else
    let king_zone := KING_SAFETY_MASK king_sq
    let friendly_pieces := board.color_combined king_color
    let escape_squares := king_zone &&& not64 friendly_pieces
    let enemy_pieces := board.color_combined king_color.flip
    let enemy_rooks := board.pieces .Rook &&& enemy_pieces
    let enemy_queens := board.pieces .Queen &&& enemy_pieces
    escape_squares == 0 && (enemy_rooks != 0 || enemy_queens != 0)

/-- detect_smothered_mate from movepick.rs. -/
def detect_smothered_mate (board : Board) (king_sq : ℕ) (king_color : Color) :
    Bool :=
  let king_zone := KING_SAFETY_MASK king_sq
  let friendly_pieces := board.color_combined king_color
  if king_zone &&& not64 friendly_pieces ≠ 0 then false
  else
    let enemy_knights := board.pieces .Knight &&& board.color_combined king_color.flip
    KNIGHT_ATTACKS king_sq &&& enemy_knights != 0

/-- detect_checkmate_patterns from movepick.rs (patterns against the king of
the opposite color).  The king square is the trailing-zeros index of the king
bitboard; the source round-trips it through Rank and File, which is the
identity on the index. -/
def detect_checkmate_patterns (board : Board) (color : Color) : ℚ :=
  let king_bb := board.pieces .King &&& board.color_combined color.flip
  if king_bb = 0 then 0
  else
    let king_square := lsb64 king_bb
    let pattern_value : ℚ := 0
    let pattern_value :=
      if detect_back_rank_mate board king_square color.flip then
        pattern_value + BACK_RANK_MATE_BONUS
      else pattern_value
    if detect_smothered_mate board king_square color.flip then
      pattern_value + SMOTHERED_MATE_BONUS
    else pattern_value

/-- evaluate_material from movepick.rs: queens (second-queen special case),
rooks (first and second rook with positional bonuses and the connected-rooks
bonus), bishops with pair bonus, knights and pawns by count. -/
def evaluate_material (board : Board) (color : Color) (phase : GamePhase) :
    ℚ :=
  let cc := board.color_combined color
  let queen_bb := board.pieces .Queen &&& cc
  let rook_bb := board.pieces .Rook &&& cc
  let bishop_bb := board.pieces .Bishop &&& cc
  let knight_bb := board.pieces .Knight &&& cc
  let pawn_bb := board.pieces .Pawn &&& cc
  let queen_value : ℚ :=
    if popcnt queen_bb = 1 then QUEEN_VALUE_NORMAL
    else if 1 < popcnt queen_bb then
      QUEEN_VALUE_THRESHOLD_ADVANTAGE + QUEEN_VALUE_SECOND_QUEEN
    else 0
  let rook_value : ℚ :=
    if 0 < popcnt rook_bb then
      let square := lsb64 rook_bb
      let info := analyze_rook_position board square color
      let first := get_rook_value phase true + get_rook_position_bonus info
      if 1 < popcnt rook_bb then
        let second_bb := rook_bb &&& (rook_bb - 1)
        let second_square := lsb64 second_bb
        let info2 := analyze_rook_position board second_square color
        let second := get_rook_value phase false + get_rook_position_bonus info2
        let connected : ℚ :=
          if ROOK_ATTACKS square &&& second_bb ≠ 0 then 0.2 else 0
        first + second + connected
      else first
    else 0
  let bishop_value : ℚ := (popcnt bishop_bb : ℚ) * BISHOP_VALUE +
    (if 2 ≤ popcnt bishop_bb then get_bishop_pair_bonus phase else 0)
  let knight_value : ℚ := (popcnt knight_bb : ℚ) * get_knight_value phase
  let pawn_value : ℚ := (popcnt pawn_bb : ℚ) * get_pawn_value phase
  queen_value + rook_value + bishop_value + knight_value + pawn_value

/-- The piece-square loop of evaluate_board: one pass over all 64 squares and
six piece kinds, accumulating the white and black positional values. -/
def psqt_pair (board : Board) (phase : GamePhase) : ℚ × ℚ :=
  (List.range 64).foldl (fun acc square =>
    let sq_bb := 1 <<< square
    [Piece.King, .Queen, .Rook, .Bishop, .Knight, .Pawn].foldl (fun acc piece =>
      if board.pieces piece &&& sq_bb ≠ 0 then
        if board.color_combined .White &&& sq_bb ≠ 0 then
          (acc.1 + get_piece_square_value piece square .White phase, acc.2)
        else if board.color_combined .Black &&& sq_bb ≠ 0 then
          (acc.1, acc.2 + get_piece_square_value piece square .Black phase)
        else acc
      else acc) acc) (0, 0)

/-- The attack-evaluation loop of evaluate_board: evaluate_attacks for both
colors over all 64 squares. -/
def attacks_pair (board : Board) : ℚ × ℚ :=
  (List.range 64).foldl (fun acc square =>
    (acc.1 + evaluate_attacks board square .White,
     acc.2 + evaluate_attacks board square .Black)) (0, 0)

/-- The white and black accumulated totals of evaluate_board, before the
side-to-move perspective adjustment. -/
def color_totals (board : Board) (move_count : ℕ) : ℚ × ℚ :=
  let phase := detect_game_phase board move_count
  let p := psqt_pair board phase
  let white_value := p.1 + evaluate_material board .White phase
  let black_value := p.2 + evaluate_material board .Black phase
  let a := attacks_pair board
  let white_value := white_value + a.1
  let black_value := black_value + a.2
  let white_value := white_value + detect_checkmate_patterns board .White
  let black_value := black_value + detect_checkmate_patterns board .Black
  (white_value, black_value)

/-- evaluate_board from movepick.rs: accumulate both color totals, then
report the difference from the perspective of the side to move. -/
def evaluate_board (board : Board) (move_count : ℕ) : ℚ :=
  let t := color_totals board move_count
  match board.sideToMove with
  | .White => t.1 - t.2
  | .Black => t.2 - t.1

-- External board service and positions (movegen.rs and the chess crate) ------

/-- The external chess crate operations used by the core (spec section 6):
move-string parsing, move application, legal move generation, check
detection, and the coordinate accessors of a parsed move.  The core is
verified for every implementation of this interface. -/
structure Service where
  MoveStr : Type
  CMove : Type
  parse : MoveStr → Option CMove
  apply_move : Board → CMove → Board
  legal_moves : Board → List MoveStr
  checkers : Board → ℕ
  get_source : CMove → ℕ
  get_dest : CMove → ℕ

/-- Position from movegen.rs: a board plus the half-move counter.  The
counter is a u32 in the source; it is modelled as a natural number, and the
one mutation the source performs on it (the increment in make_move) is
reduced mod 2^32, matching the release-build wrapping semantics of the Rust
increment. -/
structure Position where
  board : Board
  move_count : ℕ
deriving Repr

/-- Position::make_move from movegen.rs: parse the move string; on success
apply it and increment the u32 half-move counter (wrapping at 2^32, as the
Rust += 1 does in a release build), on failure leave the position unchanged
and report false. -/
def make_move (S : Service) (pos : Position) (mv : S.MoveStr) :
    Bool × Position :=
  match S.parse mv with
  | some chess_move =>
      (true, { board := S.apply_move pos.board chess_move,
               move_count := (pos.move_count + 1) % 2 ^ 32 })
  | none => (false, pos)

/-- board.piece_on(square) of the chess crate, concretely from the occupancy
masks. -/
def piece_on (b : Board) (sq : ℕ) : Option Piece :=
  [Piece.Pawn, .Knight, .Bishop, .Rook, .Queen, .King].find?
    (fun p => b.pieces p &&& (1 <<< sq) != 0)

-- Move ordering (movepick.rs) -------------------------------------------------

/-- get_piece_value from movepick.rs (centipawn ordering weights). -/
def get_piece_value : Piece → ℤ
  | .Pawn => 100
  | .Knight => 320
  | .Bishop => 330
  | .Rook => 500
  | .Queen => 900
  | .King => 20000

/-- is_development_move from movepick.rs.  The source unwraps piece_on at the
move source; the default supplied here is never taken for generated legal
moves, whose source square is occupied. -/
def is_development_move (S : Service) (board : Board) (mv : S.CMove) : Bool :=
  let piece := (piece_on board (S.get_source mv)).getD .Pawn
  let from_rank := S.get_source mv / 8
  let is_home_rank :=
    match board.sideToMove with
    | .White => from_rank == 1
    | .Black => from_rank == 6
  (piece == .Knight || piece == .Bishop) && is_home_rank

/-- is_king_safety_move from movepick.rs. -/
def is_king_safety_move (S : Service) (board : Board) (mv : S.CMove) : Bool :=
  let piece := (piece_on board (S.get_source mv)).getD .Pawn
  piece == .King && S.checkers board != 0

/-- is_repeat_move from movepick.rs. -/
def is_repeat_move (S : Service) (board : Board) (mv : S.CMove) : Bool :=
  let piece := (piece_on board (S.get_source mv)).getD .Pawn
  let from_rank := S.get_source mv / 8
  match board.sideToMove with
  | .White => decide (1 < from_rank) && piece != .King && piece != .Queen
  | .Black => decide (from_rank < 6) && piece != .King && piece != .Queen

/-- The per-move heuristic score of order_moves in movepick.rs (before the
final negation used for ascending sorting): MVV-LVA capture bonus, center
control, opening development, king safety, repeat-move penalty.  An
unparseable move keeps score 0. -/
def order_score (S : Service) (pos : Position) (mv : S.MoveStr) : ℤ :=
  match S.parse mv with
  | none => 0
  | some chess_move =>
    let score : ℤ := 0
    let score := score +
      (match piece_on pos.board (S.get_dest chess_move) with
       | some captured_piece =>
          10 * get_piece_value captured_piece -
            get_piece_value
              ((piece_on pos.board (S.get_source chess_move)).getD .Pawn)
       | none => 0)
    let dest := S.get_dest chess_move
    let score := if 27 ≤ dest ∧ dest ≤ 36 then score + 50 else score
    let score :=
      if pos.move_count < 10 ∧ is_development_move S pos.board chess_move then
        score + 30
      else score
    let score :=
      if is_king_safety_move S pos.board chess_move then score + 40 else score
    if pos.move_count < 10 ∧ is_repeat_move S pos.board chess_move then
      score - 20
    else score

/-- The sorting relation of order_moves: ascending by negated score, as in
sort_by_cached_key. -/
def order_rel (S : Service) (pos : Position) (a b : S.MoveStr) : Prop :=
  -(order_score S pos a) ≤ -(order_score S pos b)

instance (S : Service) (pos : Position) : DecidableRel (order_rel S pos) :=
  fun _ _ => Int.decLe _ _

/-- order_moves from movepick.rs: a stable sort by negated heuristic score
(sort_by_cached_key is a stable ascending sort). -/
def order_moves (S : Service) (pos : Position) (moves : List S.MoveStr) :
    List S.MoveStr :=
  List.insertionSort (order_rel S pos) moves

-- Search (movepick.rs) --------------------------------------------------------

/-- Scores in the search are f64 values that can be the infinite sentinels:
modelled as rationals extended with a bottom and a top element. -/
abbrev XQ : Type := WithBot (WithTop ℚ)

/-- Embedding of a finite score. -/
def ofQ (q : ℚ) : XQ := ((q : WithTop ℚ) : XQ)

/-- The move loop of alpha_beta_search: for each move that applies
successfully, recurse with the current window, update the best value, move
and window exactly as the source (maximizer raises alpha on a strict
improvement, minimizer lowers beta), and break as soon as beta is at most
alpha.  Moves whose make_move fails are skipped without the beta-alpha
check, as in the source. -/
def ab_loop (S : Service)
    (child : Position → XQ → XQ → Bool → XQ × Option S.MoveStr)
    (maxi : Bool) :
    List S.MoveStr → Position → XQ → XQ → XQ → Option S.MoveStr →
      XQ × Option S.MoveStr
  | [], _, _, _, best, bm => (best, bm)
  | mv :: rest, pos, a, b, best, bm =>
    match make_move S pos mv with
    | (false, _) => ab_loop S child maxi rest pos a b best bm
    | (true, new_position) =>
      let ev := (child new_position a b (!maxi)).1
      if maxi then
        if best < ev then
          let a2 := max a ev
          if b ≤ a2 then (ev, some mv)
          else ab_loop S child maxi rest pos a2 b ev (some mv)
        else if b ≤ a then (best, bm)
        else ab_loop S child maxi rest pos a b best bm
      else
        if ev < best then
          let b2 := min b ev
          if b2 ≤ a then (ev, some mv)
          else ab_loop S child maxi rest pos a b2 ev (some mv)
        else if b ≤ a then (best, bm)
        else ab_loop S child maxi rest pos a b best bm

/-- alpha_beta_search from movepick.rs.  The stop flag models the global
should_stop signal, read at every node entry together with the depth-zero
test; a set flag short-circuits to the static evaluation.  At a nonzero
depth the legal moves are generated and ordered; with no legal moves the
terminal values are the mate score -10000 + depth in check and 0.0
otherwise; with moves the window loop runs with the initial best value
-INFINITY for the maximizer and +INFINITY for the minimizer. -/
def alpha_beta_search (S : Service) (stop : Bool) :
    ℕ → Position → XQ → XQ → Bool → XQ × Option S.MoveStr
  | 0, pos, _, _, _ =>
      (ofQ (evaluate_board pos.board pos.move_count), none)
  | depth + 1, pos, a, b, maxi =>
    if stop then (ofQ (evaluate_board pos.board pos.move_count), none)
    else
      let moves := order_moves S pos (S.legal_moves pos.board)
      if moves.isEmpty then
        if S.checkers pos.board ≠ 0 then
          (ofQ (-10000 + ((depth + 1 : ℕ) : ℚ)), none)
        else (ofQ 0, none)
      else
        ab_loop S (alpha_beta_search S stop depth) maxi moves pos a b
          (if maxi then ⊥ else ⊤) none

/-- The move loop of the unpruned reference minimax: fold the child values
with max for the maximizer and min for the minimizer, skipping moves whose
make_move fails, exactly over the same move generation and application. -/
def mm_loop (S : Service) (child : Position → Bool → XQ) (maxi : Bool) :
    List S.MoveStr → Position → XQ → XQ
  | [], _, acc => acc
  | mv :: rest, pos, acc =>
    match make_move S pos mv with
    | (false, _) => mm_loop S child maxi rest pos acc
    | (true, new_position) =>
      let v := child new_position (!maxi)
      mm_loop S child maxi rest pos (if maxi then max acc v else min acc v)

/-- Modelled from the spec (section 4.4 and section 8): full-window unpruned
minimax over the same move generation, move application, leaf evaluation and
terminal values as alpha_beta_search, used as the reference for the
pruning-equivalence claim. -/
def minimax_search (S : Service) : ℕ → Position → Bool → XQ
  | 0, pos, _ => ofQ (evaluate_board pos.board pos.move_count)
  | depth + 1, pos, maxi =>
    let moves := S.legal_moves pos.board
    if moves.isEmpty then
      if S.checkers pos.board ≠ 0 then ofQ (-10000 + ((depth + 1 : ℕ) : ℚ))
      else ofQ 0
    else mm_loop S (minimax_search S depth) maxi moves pos
      (if maxi then ⊥ else ⊤)

-- pick_move (movepick.rs) ------------------------------------------------------

/-- The aspiration re-search loop of pick_move at one depth.  In the source
the loop runs until the returned score lies strictly inside the window,
widening the failed side to the corresponding infinity and repeating; the
fuel argument only bounds that repetition so the model is total, and a fuel
exhaustion returns the current fallback move, which the running program
would never reach whenever the loop exits (the theorems show one iteration
suffices under the stated hypotheses).  The maximum search depth in the
source is the constant 1, so every search call is at depth 1 with the full
initial window. -/
def research_loop (S : Service) (stop : Bool) (pos : Position) (maxi : Bool) :
    ℕ → XQ → XQ → XQ → Option S.MoveStr → Option S.MoveStr
  | 0, _, _, _, best_move => best_move
  | fuel + 1, a, b, best_score, best_move =>
    let r := alpha_beta_search S stop 1 pos a b maxi
    if r.1 ≤ a then
      research_loop S stop pos maxi fuel ⊥ b best_score best_move
    else if b ≤ r.1 then
      research_loop S stop pos maxi fuel a ⊤ best_score best_move
    else if r.2.isSome ∧ (best_score < r.1 ∨ best_move.isNone) then r.2
    else best_move

/-- pick_move from movepick.rs: return none with no legal moves, otherwise
record the first legal move as the fallback best move, then run the single
configured depth (max_depth = 1, below the aspiration threshold 4, hence the
full initial window and initial best score -INFINITY), and return the best
move.  The elapsed-time and stop checks after the inner loop only break out
of a depth loop that is ending anyway. -/
def pick_move (S : Service) (stop : Bool) (fuel : ℕ) (pos : Position) :
    Option S.MoveStr :=
  let legal_moves := S.legal_moves pos.board
  if legal_moves.isEmpty then none
  else
    let best_move := legal_moves.head?
    research_loop S stop pos (pos.board.sideToMove == Color.White) fuel
      ⊥ ⊤ ⊥ best_move

-- Time control (time_control.rs) ----------------------------------------------

def SAFEGUARD : ℚ := 100.0
def GAME_LENGTH : ℕ := 30
def MAX_USAGE : ℚ := 0.8
def NO_TIME : ℕ := 0

/-- GameTime from time_control.rs. -/
structure GameTime where
  wtime : ℤ
  btime : ℤ
  winc : ℤ
  binc : ℤ
  movestogo : Option ℕ

/-- GameTime::calculate_time from time_control.rs.  The source rounds an f64
and casts with as u128; in both branches that produce a round the rounded
value is non-negative, and Int.toNat agrees with the saturating Rust cast on
negatives as well. -/
def calculate_time (gt : GameTime) (color : Color) : ℕ :=
  let mtg : ℚ := ((gt.movestogo.getD GAME_LENGTH : ℕ) : ℚ)
  let is_white := color == Color.White
  let clock : ℚ := ((if is_white then gt.wtime else gt.btime : ℤ) : ℚ)
  let increment : ℚ := ((if is_white then gt.winc else gt.binc : ℤ) : ℚ)
  let base_time := clock - SAFEGUARD
  if base_time ≤ 0 then
    if 0 < increment then (round (increment * MAX_USAGE)).toNat
    else NO_TIME
  else (round (base_time * MAX_USAGE / mtg)).toNat

/-- Modelled from the spec (section 4.5): subtract the 100 ms safeguard from
the remaining clock of the side; if the result is non-positive allocate
round(increment times 0.8) when the increment is positive and zero
otherwise; else allocate round((remaining - 100) times 0.8 / moves_to_go)
with moves_to_go defaulting to 30 when absent. -/
def calculate_time_spec (gt : GameTime) (color : Color) : ℕ :=
  let remaining : ℚ := ((if color = .White then gt.wtime else gt.btime : ℤ) : ℚ)
  let increment : ℚ := ((if color = .White then gt.winc else gt.binc : ℤ) : ℚ)
  let moves_to_go : ℚ := ((gt.movestogo.getD 30 : ℕ) : ℚ)
  if remaining - 100 ≤ 0 then
    if 0 < increment then (round (increment * 0.8)).toNat else 0
  else (round ((remaining - 100) * 0.8 / moves_to_go)).toNat


-- Phase-generalized variants and spec-side comparison definitions -------------

/-- get_piece_value_on_square with the game phase as an explicit parameter
(the source always passes the phase computed at move count 0). -/
def get_piece_value_on_square_phase (board : Board) (square : ℕ)
    (phase : GamePhase) : ℚ :=
  let square_bb := 1 <<< square
  match [Piece.Queen, .Rook, .Bishop, .Knight, .Pawn].find?
      (fun piece => board.pieces piece &&& square_bb != 0) with
  | some piece => (get_piece_base_value piece phase).untop' 0
  | none => 0

/-- evaluate_square_control with the game phase as an explicit parameter. -/
def evaluate_square_control_phase (board : Board) (square : ℕ) (color : Color)
    (phase : GamePhase) : AttackInfo :=
  [Piece.Pawn, .Knight, .Bishop, .Rook, .Queen].foldl (fun info piece =>
    let piece_bb := board.pieces piece &&& board.color_combined color
    let attacks := piece_attack_pattern piece square color
    if piece_bb &&& attacks ≠ 0 then
      let piece_value := get_piece_base_value piece phase
      { info with
        attackers := info.attackers ++ [(piece, square)],
        smallest_attacker := min info.smallest_attacker piece_value }
    else info)
    { attackers := [], defenders := [],
      target_value := get_piece_value_on_square_phase board square phase,
      smallest_attacker := ⊤, smallest_defender := ⊤ }

/-- static_exchange_evaluation with the game phase as an explicit parameter. -/
def static_exchange_evaluation_phase (board : Board) (square : ℕ)
    (attacking_color : Color) (phase : GamePhase) : SEEResult :=
  let target_value := get_piece_value_on_square_phase board square phase
  match [Piece.Pawn, .Knight, .Bishop, .Rook, .Queen].find? (fun piece =>
      (board.pieces piece &&& board.color_combined attacking_color) &&&
        piece_attack_pattern piece square attacking_color != 0) with
  | some piece =>
      { gain := target_value - (get_piece_base_value piece phase).untop' 0,
        exchange_sequence := [(piece, square)] }
  | none => { gain := 0, exchange_sequence := [] }

/-- Modelled from the spec (section 4.2 item 3): the attack score with the
defender set taken as the pieces of the opposite color bearing on the square
(the attackers computed by the same square-control scan for the flipped
color), a -0.1 penalty per defender, and the flat +0.3 bonus exactly when
that defender set is empty.  Kept for comparison with evaluate_attacks. -/
def evaluate_attacks_spec (board : Board) (square : ℕ) (color : Color) : ℚ :=
  let attack_info := evaluate_square_control board square color
  let defense_info := evaluate_square_control board square color.flip
  let defenders := defense_info.attackers
  if attack_info.attackers = [] then 0
  else
    let attack_value :=
      attack_info.target_value - attack_info.smallest_attacker.untop' 0
    let attacker_bonus : ℚ :=
      if attack_info.attackers.length = 2 then 0.3
      else if attack_info.attackers.length = 3 then 0.5
      else if 4 ≤ attack_info.attackers.length then 0.7
      else 0
    let defense_penalty : ℚ :=
      if ¬ defenders = [] then -0.1 * (defenders.length : ℚ) else 0
    let hanging_bonus : ℚ := if defenders = [] then 0.3 else 0
    let total_value := attack_value + attacker_bonus + defense_penalty +
      hanging_bonus
    let see_result := static_exchange_evaluation board square color
    let total_value := total_value + see_result.gain
    if ¬ see_result.exchange_sequence = [] ∧ 0 < see_result.gain then
      total_value + 0.2
    else total_value

-- Concrete boards and services used by counterexamples and witnesses ---------

/-- A position with a black pawn on d4 (square 27) attacked by the white
knight on b3 (square 17) and defended by the black knight on f5 (square 37);
kings on e1 and e8. -/
def B0 : Board :=
  { pawns := 1 <<< 27, knights := (1 <<< 17) ||| (1 <<< 37), bishops := 0,
    rooks := 0, queens := 0, kings := (1 <<< 4) ||| (1 <<< 60),
    white := (1 <<< 17) ||| (1 <<< 4),
    black := (1 <<< 27) ||| (1 <<< 37) ||| (1 <<< 60),
    sideToMove := .White }

/-- A position where White has two queens (a1, b1) and Black none; kings on
e1 and e8. -/
def B1 : Board :=
  { pawns := 0, knights := 0, bishops := 0, rooks := 0,
    queens := (1 <<< 0) ||| (1 <<< 1), kings := (1 <<< 4) ||| (1 <<< 60),
    white := (1 <<< 0) ||| (1 <<< 1) ||| (1 <<< 4), black := 1 <<< 60,
    sideToMove := .White }

/-- A bare-kings board used by witnesses. -/
def WBoard : Board :=
  { pawns := 0, knights := 0, bishops := 0, rooks := 0, queens := 0,
    kings := (1 <<< 4) ||| (1 <<< 60), white := 1 <<< 4, black := 1 <<< 60,
    sideToMove := .White }

/-- A concrete position used by witnesses. -/
def WPos : Position := { board := WBoard, move_count := 5 }

/-- A concrete position whose u32 half-move counter sits at u32::MAX, the
wrap point of the Rust increment. -/
def PMax : Position := { board := WBoard, move_count := 2 ^ 32 - 1 }

/-- A concrete board service with one legal move (1) whose parse succeeds and
a parse that fails exactly on the string 0; used by witnesses. -/
def WServiceA : Service :=
  { MoveStr := ℕ, CMove := ℕ,
    parse := fun n => if n = 0 then none else some n,
    apply_move := fun b _ => b,
    legal_moves := fun _ => [1],
    checkers := fun _ => 0,
    get_source := fun _ => 0, get_dest := fun _ => 0 }

/-- The unparseable and parseable witness move strings for the concrete
service. -/
def WMoveBad : ℕ := 0

/-- The parseable witness move string for the concrete service. -/
def WMoveGood : ℕ := 1

/-- A concrete board service with no legal moves and the side to move in
check; used by witnesses. -/
def WServiceB : Service :=
  { MoveStr := ℕ, CMove := ℕ,
    parse := fun _ => none,
    apply_move := fun b _ => b,
    legal_moves := fun _ => [],
    checkers := fun _ => 1,
    get_source := fun _ => 0, get_dest := fun _ => 0 }

-- Order lemmas for the extended score type ------------------------------------

lemma ofQ_le_ofQ {a b : ℚ} : ofQ a ≤ ofQ b ↔ a ≤ b := by
  simp [ofQ]

lemma ofQ_lt_ofQ {a b : ℚ} : ofQ a < ofQ b ↔ a < b := by
  simp [ofQ]

lemma bot_lt_ofQ (a : ℚ) : (⊥ : XQ) < ofQ a := by
  simp [ofQ]

lemma ofQ_lt_top (a : ℚ) : ofQ a < (⊤ : XQ) := by
  simpa [ofQ] using WithBot.coe_lt_coe.mpr (WithTop.coe_lt_top a)

lemma max_ofQ (a b : ℚ) : max (ofQ a) (ofQ b) = ofQ (max a b) := by
  rcases le_total a b with h | h
  · rw [max_eq_right h, max_eq_right (ofQ_le_ofQ.mpr h)]
  · rw [max_eq_left h, max_eq_left (ofQ_le_ofQ.mpr h)]

lemma min_ofQ (a b : ℚ) : min (ofQ a) (ofQ b) = ofQ (min a b) := by
  rcases le_total a b with h | h
  · rw [min_eq_left h, min_eq_left (ofQ_le_ofQ.mpr h)]
  · rw [min_eq_right h, min_eq_right (ofQ_le_ofQ.mpr h)]

lemma xq_bot_lt_top : (⊥ : XQ) < ⊤ := bot_lt_ofQ 0 |>.trans (ofQ_lt_top 0)

-- Accumulator lemmas for the reference minimax loop ---------------------------

section MmLoop

variable (S : Service) (child : Position → Bool → XQ)

lemma mm_loop_acc_max :
    ∀ (l : List S.MoveStr) (pos : Position) (acc : XQ),
      mm_loop S child true l pos acc = max acc (mm_loop S child true l pos ⊥) := by
  intro l
  induction l with
  | nil =>
      intro pos acc
      simp [mm_loop]
  | cons mv rest ih =>
      intro pos acc
      simp only [mm_loop]
      rcases hm : make_move S pos mv with ⟨ok, newpos⟩
      cases ok
      · simpa using ih pos acc
      · simp only [if_true, Bool.not_true]
        rw [ih pos (max acc (child newpos false)),
          ih pos (max ⊥ (child newpos false))]
        rw [max_eq_right (bot_le : (⊥ : XQ) ≤ child newpos false)]
        rw [max_assoc]

lemma mm_loop_acc_min :
    ∀ (l : List S.MoveStr) (pos : Position) (acc : XQ),
      mm_loop S child false l pos acc = min acc (mm_loop S child false l pos ⊤) := by
  intro l
  induction l with
  | nil =>
      intro pos acc
      simp [mm_loop]
  | cons mv rest ih =>
      intro pos acc
      simp only [mm_loop]
      rcases hm : make_move S pos mv with ⟨ok, newpos⟩
      cases ok
      · simpa using ih pos acc
      · simp only [Bool.false_eq_true, if_false, Bool.not_false]
        rw [ih pos (min acc (child newpos true)),
          ih pos (min ⊤ (child newpos true))]
        rw [min_eq_right (le_top : child newpos true ≤ (⊤ : XQ))]
        rw [min_assoc]

lemma le_mm_loop_max (l : List S.MoveStr) (pos : Position) (acc : XQ) :
    acc ≤ mm_loop S child true l pos acc := by
  rw [mm_loop_acc_max]
  exact le_max_left _ _

lemma mm_loop_min_le (l : List S.MoveStr) (pos : Position) (acc : XQ) :
    mm_loop S child false l pos acc ≤ acc := by
  rw [mm_loop_acc_min]
  exact min_le_left _ _

lemma mm_loop_mono_max (l : List S.MoveStr) (pos : Position) {a1 a2 : XQ}
    (h : a1 ≤ a2) :
    mm_loop S child true l pos a1 ≤ mm_loop S child true l pos a2 := by
  rw [mm_loop_acc_max, mm_loop_acc_max S child l pos a2]
  exact max_le_max h le_rfl

lemma mm_loop_mono_min (l : List S.MoveStr) (pos : Position) {a1 a2 : XQ}
    (h : a1 ≤ a2) :
    mm_loop S child false l pos a1 ≤ mm_loop S child false l pos a2 := by
  rw [mm_loop_acc_min, mm_loop_acc_min S child l pos a2]
  exact min_le_min h le_rfl

lemma mm_loop_perm {l1 l2 : List S.MoveStr} (h : l1.Perm l2) (maxi : Bool) :
    ∀ (pos : Position) (acc : XQ),
      mm_loop S child maxi l1 pos acc = mm_loop S child maxi l2 pos acc := by
  induction h with
  | nil => intro pos acc; rfl
  | cons x p ih =>
      intro pos acc
      simp only [mm_loop]
      rcases hm : make_move S pos x with ⟨ok, newpos⟩
      cases ok <;> exact ih pos _
  | swap x y l =>
      intro pos acc
      simp only [mm_loop]
      rcases hmy : make_move S pos y with ⟨oky, posy⟩
      rcases hmx : make_move S pos x with ⟨okx, posx⟩
      cases oky <;> cases okx <;> try rfl
      cases maxi
      · simp only [Bool.false_eq_true, if_false]
        rw [inf_right_comm]
      · simp only [if_true]
        rw [sup_right_comm]
  | trans p q ih1 ih2 =>
      intro pos acc
      rw [ih1, ih2]

end MmLoop

-- Knuth-Moore style fail-soft window lemmas for the alpha-beta move loop ------

section AbLoop

variable (S : Service)
variable (child_ab : Position → XQ → XQ → Bool → XQ × Option S.MoveStr)
variable (child_mm : Position → Bool → XQ)

lemma ab_loop_km_max
    (hchild : ∀ (p : Position) (a b : XQ), a < b →
      ((child_ab p a b false).1 ≤ a → child_mm p false ≤ (child_ab p a b false).1) ∧
      (b ≤ (child_ab p a b false).1 → (child_ab p a b false).1 ≤ child_mm p false) ∧
      (a < (child_ab p a b false).1 → (child_ab p a b false).1 < b →
        (child_ab p a b false).1 = child_mm p false)) :
    ∀ (l : List S.MoveStr) (pos : Position) (a b best : XQ)
      (bm : Option S.MoveStr), a < b → best ≤ a →
      best ≤ (ab_loop S child_ab true l pos a b best bm).1 ∧
      ((ab_loop S child_ab true l pos a b best bm).1 < b →
        mm_loop S child_mm true l pos best ≤
          (ab_loop S child_ab true l pos a b best bm).1) ∧
      (a < (ab_loop S child_ab true l pos a b best bm).1 →
        (ab_loop S child_ab true l pos a b best bm).1 < b →
        (ab_loop S child_ab true l pos a b best bm).1 ≤
          mm_loop S child_mm true l pos best) ∧
      (b ≤ (ab_loop S child_ab true l pos a b best bm).1 →
        (ab_loop S child_ab true l pos a b best bm).1 ≤
          mm_loop S child_mm true l pos best) := by
  intro l
  induction l with
  | nil =>
      intro pos a b best bm hab hba
      simp only [ab_loop, mm_loop]
      exact ⟨le_rfl, fun _ => le_rfl, fun _ _ => le_rfl, fun _ => le_rfl⟩
  | cons mv rest ih =>
      intro pos a b best bm hab hba
      simp only [ab_loop, mm_loop]
      rcases hm : make_move S pos mv with ⟨ok, newpos⟩
      cases ok
      · exact ih pos a b best bm hab hba
      · simp only [Bool.not_true, if_true]
        obtain ⟨hc1, hc2, hc3⟩ := hchild newpos a b hab
        by_cases hup : best < (child_ab newpos a b false).1
        · rw [if_pos hup]
          by_cases hcut : b ≤ max a (child_ab newpos a b false).1
          · rw [if_pos hcut]
            have hbe : b ≤ (child_ab newpos a b false).1 := by
              rcases le_max_iff.mp hcut with h | h
              · exact absurd h (not_le.mpr hab)
              · exact h
            dsimp only
            have step1 : (child_ab newpos a b false).1 ≤ child_mm newpos false :=
              hc2 hbe
            have step2 : child_mm newpos false ≤
                max best (child_mm newpos false) := le_max_right _ _
            have step3 : max best (child_mm newpos false) ≤
                mm_loop S child_mm true rest pos
                  (max best (child_mm newpos false)) :=
              le_mm_loop_max S child_mm rest pos _
            exact ⟨hup.le, fun h => absurd h (not_lt.mpr hbe),
              fun _ h => absurd h (not_lt.mpr hbe),
              fun _ => step1.trans (step2.trans step3)⟩
          · rw [if_neg hcut]
            have hab2 : max a (child_ab newpos a b false).1 < b := not_le.mp hcut
            have hba2 : (child_ab newpos a b false).1 ≤
                max a (child_ab newpos a b false).1 := le_max_right a _
            obtain ⟨i1, i2, i3, i4⟩ := ih pos (max a (child_ab newpos a b false).1)
              b (child_ab newpos a b false).1 (some mv) hab2 hba2
            have hevb : (child_ab newpos a b false).1 < b :=
              lt_of_le_of_lt (le_max_right a _) hab2
            have hcv_le_ev : child_mm newpos false ≤ (child_ab newpos a b false).1 := by
              by_cases hea : (child_ab newpos a b false).1 ≤ a
              · exact hc1 hea
              · exact (hc3 (not_le.mp hea) hevb).symm.le
            have hmm : mm_loop S child_mm true rest pos
                  (max best (child_mm newpos false)) ≤
                mm_loop S child_mm true rest pos (child_ab newpos a b false).1 :=
              mm_loop_mono_max S child_mm rest pos (max_le hup.le hcv_le_ev)
            refine ⟨hup.le.trans i1, fun h => hmm.trans (i2 h), ?_, ?_⟩
            · intro hav hvb
              rcases eq_or_lt_of_le i1 with heq | hlt
              · have hcveq : (child_ab newpos a b false).1 = child_mm newpos false := by
                  refine hc3 ?_ hevb
                  calc a < (ab_loop S child_ab true rest pos
                      (max a (child_ab newpos a b false).1) b
                      (child_ab newpos a b false).1 (some mv)).1 := hav
                    _ = (child_ab newpos a b false).1 := heq.symm
                rw [← heq, hcveq]
                exact (le_max_right best _).trans (le_mm_loop_max S child_mm rest pos _)
              · have h3 := i3 (max_lt hav hlt) hvb
                rw [mm_loop_acc_max] at h3
                rcases le_max_iff.mp h3 with h | h
                · exact absurd h (not_le.mpr hlt)
                · exact h.trans (mm_loop_mono_max S child_mm rest pos bot_le)
            · intro hbv
              have h4 := i4 hbv
              rw [mm_loop_acc_max] at h4
              rcases le_max_iff.mp h4 with h | h
              · exact absurd (h.trans_lt hevb) (not_lt.mpr hbv)
              · exact h.trans (mm_loop_mono_max S child_mm rest pos bot_le)
        · rw [if_neg hup, if_neg (not_le.mpr hab)]
          obtain ⟨i1, i2, i3, i4⟩ := ih pos a b best bm hab hba
          have hev_best : (child_ab newpos a b false).1 ≤ best := not_lt.mp hup
          have hcv : child_mm newpos false ≤ (child_ab newpos a b false).1 :=
            hc1 (hev_best.trans hba)
          rw [max_eq_left (hcv.trans hev_best)]
          exact ⟨i1, i2, i3, i4⟩

lemma ab_loop_km_min
    (hchild : ∀ (p : Position) (a b : XQ), a < b →
      ((child_ab p a b true).1 ≤ a → child_mm p true ≤ (child_ab p a b true).1) ∧
      (b ≤ (child_ab p a b true).1 → (child_ab p a b true).1 ≤ child_mm p true) ∧
      (a < (child_ab p a b true).1 → (child_ab p a b true).1 < b →
        (child_ab p a b true).1 = child_mm p true)) :
    ∀ (l : List S.MoveStr) (pos : Position) (a b best : XQ)
      (bm : Option S.MoveStr), a < b → b ≤ best →
      (ab_loop S child_ab false l pos a b best bm).1 ≤ best ∧
      (a < (ab_loop S child_ab false l pos a b best bm).1 →
        (ab_loop S child_ab false l pos a b best bm).1 ≤
          mm_loop S child_mm false l pos best) ∧
      (a < (ab_loop S child_ab false l pos a b best bm).1 →
        (ab_loop S child_ab false l pos a b best bm).1 < b →
        mm_loop S child_mm false l pos best ≤
          (ab_loop S child_ab false l pos a b best bm).1) ∧
      ((ab_loop S child_ab false l pos a b best bm).1 ≤ a →
        mm_loop S child_mm false l pos best ≤
          (ab_loop S child_ab false l pos a b best bm).1) := by
  intro l
  induction l with
  | nil =>
      intro pos a b best bm hab hbb
      simp only [ab_loop, mm_loop]
      exact ⟨le_rfl, fun _ => le_rfl, fun _ _ => le_rfl, fun _ => le_rfl⟩
  | cons mv rest ih =>
      intro pos a b best bm hab hbb
      simp only [ab_loop, mm_loop]
      rcases hm : make_move S pos mv with ⟨ok, newpos⟩
      cases ok
      · exact ih pos a b best bm hab hbb
      · simp only [Bool.not_false, Bool.false_eq_true, if_false]
        obtain ⟨hc1, hc2, hc3⟩ := hchild newpos a b hab
        by_cases hup : (child_ab newpos a b true).1 < best
        · rw [if_pos hup]
          by_cases hcut : min b (child_ab newpos a b true).1 ≤ a
          · rw [if_pos hcut]
            have hea : (child_ab newpos a b true).1 ≤ a := by
              rcases min_le_iff.mp hcut with h | h
              · exact absurd h (not_le.mpr hab)
              · exact h
            dsimp only
            have step1 : child_mm newpos true ≤ (child_ab newpos a b true).1 :=
              hc1 hea
            have step2 : min best (child_mm newpos true) ≤
                child_mm newpos true := min_le_right _ _
            have step3 : mm_loop S child_mm false rest pos
                  (min best (child_mm newpos true)) ≤
                min best (child_mm newpos true) :=
              mm_loop_min_le S child_mm rest pos _
            exact ⟨hup.le, fun h => absurd h (not_lt.mpr hea),
              fun h _ => absurd h (not_lt.mpr hea),
              fun _ => step3.trans (step2.trans step1)⟩
          · rw [if_neg hcut]
            have hab2 : a < min b (child_ab newpos a b true).1 := not_le.mp hcut
            have hbb2 : min b (child_ab newpos a b true).1 ≤
                (child_ab newpos a b true).1 := min_le_right b _
            obtain ⟨i1, i2, i3, i4⟩ := ih pos a (min b (child_ab newpos a b true).1)
              (child_ab newpos a b true).1 (some mv) hab2 hbb2
            have haev : a < (child_ab newpos a b true).1 :=
              lt_of_lt_of_le hab2 (min_le_right b _)
            have hev_le_cv : (child_ab newpos a b true).1 ≤ child_mm newpos true := by
              by_cases hbe : b ≤ (child_ab newpos a b true).1
              · exact hc2 hbe
              · exact (hc3 haev (not_le.mp hbe)).le
            have hmm : mm_loop S child_mm false rest pos
                  (child_ab newpos a b true).1 ≤
                mm_loop S child_mm false rest pos
                  (min best (child_mm newpos true)) :=
              mm_loop_mono_min S child_mm rest pos (le_min hup.le hev_le_cv)
            refine ⟨i1.trans hup.le, fun h => (i2 h).trans hmm, ?_, ?_⟩
            · intro hav hvb
              rcases eq_or_lt_of_le i1 with heq | hlt
              · have hevb : (child_ab newpos a b true).1 < b := heq ▸ hvb
                have hcveq : (child_ab newpos a b true).1 = child_mm newpos true :=
                  hc3 haev hevb
                calc mm_loop S child_mm false rest pos
                      (min best (child_mm newpos true))
                    ≤ min best (child_mm newpos true) :=
                      mm_loop_min_le S child_mm rest pos _
                  _ ≤ child_mm newpos true := min_le_right _ _
                  _ = (child_ab newpos a b true).1 := hcveq.symm
                  _ = _ := heq.symm
              · have h3 := i3 hav (lt_min hvb hlt)
                rw [mm_loop_acc_min] at h3
                rcases min_le_iff.mp h3 with h | h
                · exact absurd h (not_le.mpr hlt)
                · exact (mm_loop_mono_min S child_mm rest pos le_top).trans h
            · intro hva
              have h4 := i4 hva
              rw [mm_loop_acc_min] at h4
              rcases min_le_iff.mp h4 with h | h
              · exact absurd (hva.trans_lt haev) (not_lt.mpr h)
              · exact (mm_loop_mono_min S child_mm rest pos le_top).trans h
        · rw [if_neg hup, if_neg (not_le.mpr hab)]
          obtain ⟨i1, i2, i3, i4⟩ := ih pos a b best bm hab hbb
          have hbest_ev : best ≤ (child_ab newpos a b true).1 := not_lt.mp hup
          have hcv : (child_ab newpos a b true).1 ≤ child_mm newpos true :=
            hc2 (hbb.trans hbest_ev)
          rw [min_eq_left (hbest_ev.trans hcv)]
          exact ⟨i1, i2, i3, i4⟩

end AbLoop

-- The window soundness of the full search, by induction on depth --------------

lemma order_moves_perm (S : Service) (pos : Position) (l : List S.MoveStr) :
    (order_moves S pos l).Perm l :=
  List.perm_insertionSort _ l

lemma km_search (S : Service) :
    ∀ (d : ℕ) (pos : Position) (a b : XQ) (maxi : Bool), a < b →
      ((alpha_beta_search S false d pos a b maxi).1 ≤ a →
        minimax_search S d pos maxi ≤
          (alpha_beta_search S false d pos a b maxi).1) ∧
      (b ≤ (alpha_beta_search S false d pos a b maxi).1 →
        (alpha_beta_search S false d pos a b maxi).1 ≤
          minimax_search S d pos maxi) ∧
      (a < (alpha_beta_search S false d pos a b maxi).1 →
        (alpha_beta_search S false d pos a b maxi).1 < b →
        (alpha_beta_search S false d pos a b maxi).1 =
          minimax_search S d pos maxi) := by
  intro d
  induction d with
  | zero =>
      intro pos a b maxi hab
      simp [alpha_beta_search, minimax_search]
  | succ d ihd =>
      intro pos a b maxi hab
      simp only [alpha_beta_search, minimax_search, Bool.false_eq_true,
        if_false]
      have hperm := order_moves_perm S pos (S.legal_moves pos.board)
      by_cases hl : S.legal_moves pos.board = []
      · have hsorted : order_moves S pos (S.legal_moves pos.board) = [] := by
          rw [hl]; rfl
        rw [hsorted, hl]
        simp only [List.isEmpty_nil, if_true]
        by_cases hchk : S.checkers pos.board ≠ 0
        · rw [if_pos hchk, if_pos hchk]
          exact ⟨fun _ => le_rfl, fun _ => le_rfl, fun _ _ => rfl⟩
        · rw [if_neg hchk, if_neg hchk]
          exact ⟨fun _ => le_rfl, fun _ => le_rfl, fun _ _ => rfl⟩
      · have hsorted : ¬ order_moves S pos (S.legal_moves pos.board) = [] := by
          intro h
          apply hl
          have hp2 : List.Perm ([] : List S.MoveStr) (S.legal_moves pos.board) :=
            h ▸ hperm
          exact List.perm_nil.mp hp2.symm
        rw [if_neg (show ¬ ((order_moves S pos (S.legal_moves pos.board)).isEmpty
            = true) from by simpa [List.isEmpty_iff] using hsorted)]
        rw [if_neg (show ¬ ((S.legal_moves pos.board).isEmpty = true) from by
          simpa [List.isEmpty_iff] using hl)]
        have hmmp := mm_loop_perm S (minimax_search S d) hperm maxi pos
        cases maxi
        · have hch : ∀ (p : Position) (a2 b2 : XQ), a2 < b2 →
              ((alpha_beta_search S false d p a2 b2 true).1 ≤ a2 →
                minimax_search S d p true ≤
                  (alpha_beta_search S false d p a2 b2 true).1) ∧
              (b2 ≤ (alpha_beta_search S false d p a2 b2 true).1 →
                (alpha_beta_search S false d p a2 b2 true).1 ≤
                  minimax_search S d p true) ∧
              (a2 < (alpha_beta_search S false d p a2 b2 true).1 →
                (alpha_beta_search S false d p a2 b2 true).1 < b2 →
                (alpha_beta_search S false d p a2 b2 true).1 =
                  minimax_search S d p true) := fun p a2 b2 h => ihd p a2 b2 true h
          obtain ⟨d1, d2, d3, d4⟩ := ab_loop_km_min S (alpha_beta_search S false d)
            (minimax_search S d) hch
            (order_moves S pos (S.legal_moves pos.board)) pos a b ⊤ none hab le_top
          rw [hmmp ⊤] at d2 d3 d4
          refine ⟨fun h => d4 h, fun h => d2 (lt_of_lt_of_le hab h), fun h1 h2 => ?_⟩
          exact le_antisymm (d2 h1) (d3 h1 h2)
        · have hch : ∀ (p : Position) (a2 b2 : XQ), a2 < b2 →
              ((alpha_beta_search S false d p a2 b2 false).1 ≤ a2 →
                minimax_search S d p false ≤
                  (alpha_beta_search S false d p a2 b2 false).1) ∧
              (b2 ≤ (alpha_beta_search S false d p a2 b2 false).1 →
                (alpha_beta_search S false d p a2 b2 false).1 ≤
                  minimax_search S d p false) ∧
              (a2 < (alpha_beta_search S false d p a2 b2 false).1 →
                (alpha_beta_search S false d p a2 b2 false).1 < b2 →
                (alpha_beta_search S false d p a2 b2 false).1 =
                  minimax_search S d p false) := fun p a2 b2 h => ihd p a2 b2 false h
          obtain ⟨d1, d2, d3, d4⟩ := ab_loop_km_max S (alpha_beta_search S false d)
            (minimax_search S d) hch
            (order_moves S pos (S.legal_moves pos.board)) pos a b ⊥ none hab bot_le
          rw [hmmp ⊥] at d2 d3 d4
          refine ⟨fun h => d2 (lt_of_le_of_lt h hab), fun h => d4 h, fun h1 h2 => ?_⟩
          exact le_antisymm (d3 h1 h2) (d2 h2)

/-- Full-window corollary: with alpha = -INFINITY and beta = +INFINITY the
alpha-beta score equals the unpruned minimax score. -/
lemma km_full (S : Service) (d : ℕ) (pos : Position) (maxi : Bool) :
    (alpha_beta_search S false d pos ⊥ ⊤ maxi).1 = minimax_search S d pos maxi := by
  obtain ⟨k1, k2, k3⟩ := km_search S d pos ⊥ ⊤ maxi xq_bot_lt_top
  rcases eq_or_lt_of_le (bot_le :
      (⊥ : XQ) ≤ (alpha_beta_search S false d pos ⊥ ⊤ maxi).1) with hbot | hbot
  · have := k1 hbot.symm.le
    rw [← hbot] at this ⊢
    exact (le_bot_iff.mp this).symm
  · rcases eq_or_lt_of_le (le_top :
        (alpha_beta_search S false d pos ⊥ ⊤ maxi).1 ≤ (⊤ : XQ)) with htop | htop
    · have := k2 htop.ge
      rw [htop] at this ⊢
      exact (top_le_iff.mp this).symm
    · exact k3 hbot htop

-- Helper lemmas for the game-phase claim --------------------------------------

lemma detect_game_phase_past_opening (b : Board) (n : ℕ)
    (h : OPENING_MOVES < n) :
    detect_game_phase b n =
      match popcnt (b.pieces .Queen &&& b.color_combined .White),
            popcnt (b.pieces .Queen &&& b.color_combined .Black) with
      | 1, 1 => GamePhase.Middlegame
      | 1, 0 => GamePhase.Threshold
      | 0, 1 => GamePhase.Threshold
      | 0, 0 => GamePhase.Endgame
      | _, _ => GamePhase.Middlegame := by
  unfold detect_game_phase
  rw [if_neg (not_le.mpr h)]

-- Claim theorems ---------------------------------------------------------------

/-- Claim C1: the precomputed attack tables are claimed to exclude
edge-of-board wraparound for pawns, knights and kings.  The knight and king
tables do exclude it (file-A pieces attack nothing on the far files and
symmetrically), but the pawn table does not: the wraparound masks test the
wrong file, so a white pawn on a2 (square 8, file A) attacks h2 (a file-H
square), a white pawn on h2 attacks a4, and a black pawn on a7 attacks a
file-H square.  This theorem evaluates the code at those failing inputs and
verifies the knight and king halves of the claim. -/
theorem c1_attack_tables :
    PAWN_ATTACKS Color.White 8 &&& FILE_H ≠ 0 ∧
    PAWN_ATTACKS Color.White 15 &&& FILE_A ≠ 0 ∧
    PAWN_ATTACKS Color.Black 48 &&& FILE_H ≠ 0 ∧
    (∀ i : Fin 8, KNIGHT_ATTACKS (8 * i.val) &&& (FILE_G ||| FILE_H) = 0) ∧
    (∀ i : Fin 8, KNIGHT_ATTACKS (8 * i.val + 7) &&& (FILE_A ||| FILE_B) = 0) ∧
    (∀ i : Fin 8, KING_ATTACKS (8 * i.val) &&& FILE_H = 0) ∧
    (∀ i : Fin 8, KING_ATTACKS (8 * i.val + 7) &&& FILE_A = 0) ∧
    (∀ i : Fin 8, PAWN_ATTACKS Color.White (8 * i.val) &&& FILE_A = 0) := by
  decide

/-- Claim C3 counterexample: after the opening, a board where White has two
queens and Black none is classified Middlegame by detect_game_phase, while
the claim (Threshold exactly when exactly one side retains at least one
queen) demands Threshold. -/
theorem c3_threshold_counterexample :
    OPENING_MOVES < 21 ∧
    popcnt (B1.pieces .Queen &&& B1.color_combined .White) = 2 ∧
    popcnt (B1.pieces .Queen &&& B1.color_combined .Black) = 0 ∧
    detect_game_phase B1 21 = GamePhase.Middlegame ∧
    detect_game_phase B1 21 ≠ GamePhase.Threshold := by
  decide

/-- Claim C3 (amended): detect_game_phase returns Opening for every move
count up to OPENING_MOVES regardless of material; for any later move count
it returns Threshold exactly when one side has exactly one queen and the
other none, Endgame exactly when neither side has a queen, and Middlegame
otherwise (in particular when a side has two or more queens). -/
theorem c3_game_phase (b : Board) (n : ℕ) :
    (n ≤ OPENING_MOVES → detect_game_phase b n = GamePhase.Opening) ∧
    (OPENING_MOVES < n →
      ((detect_game_phase b n = GamePhase.Threshold ↔
        (popcnt (b.pieces .Queen &&& b.color_combined .White) = 1 ∧
         popcnt (b.pieces .Queen &&& b.color_combined .Black) = 0) ∨
        (popcnt (b.pieces .Queen &&& b.color_combined .White) = 0 ∧
         popcnt (b.pieces .Queen &&& b.color_combined .Black) = 1)) ∧
       (detect_game_phase b n = GamePhase.Endgame ↔
        popcnt (b.pieces .Queen &&& b.color_combined .White) = 0 ∧
        popcnt (b.pieces .Queen &&& b.color_combined .Black) = 0) ∧
       (detect_game_phase b n = GamePhase.Middlegame ↔
        ¬ (((popcnt (b.pieces .Queen &&& b.color_combined .White) = 1 ∧
             popcnt (b.pieces .Queen &&& b.color_combined .Black) = 0) ∨
            (popcnt (b.pieces .Queen &&& b.color_combined .White) = 0 ∧
             popcnt (b.pieces .Queen &&& b.color_combined .Black) = 1)) ∨
           (popcnt (b.pieces .Queen &&& b.color_combined .White) = 0 ∧
            popcnt (b.pieces .Queen &&& b.color_combined .Black) = 0))))) := by
  constructor
  · intro h
    unfold detect_game_phase
    rw [if_pos h]
  · intro h
    rw [detect_game_phase_past_opening b n h]
    generalize popcnt (b.pieces .Queen &&& b.color_combined .White) = wq
    generalize popcnt (b.pieces .Queen &&& b.color_combined .Black) = bq
    rcases wq with _ | _ | wq <;> rcases bq with _ | _ | bq <;> simp

/-- Claim C3 witness: the amended phase classification evaluated past the
opening on the two-queens board. -/
theorem c3_game_phase_witness :
    detect_game_phase B1 21 = GamePhase.Middlegame ↔
      ¬ (((popcnt (B1.pieces .Queen &&& B1.color_combined .White) = 1 ∧
           popcnt (B1.pieces .Queen &&& B1.color_combined .Black) = 0) ∨
          (popcnt (B1.pieces .Queen &&& B1.color_combined .White) = 0 ∧
           popcnt (B1.pieces .Queen &&& B1.color_combined .Black) = 1)) ∨
         (popcnt (B1.pieces .Queen &&& B1.color_combined .White) = 0 ∧
          popcnt (B1.pieces .Queen &&& B1.color_combined .Black) = 0)) :=
  ((c3_game_phase B1 21).2 (by decide)).2.2

/-- Claim C7: evaluating the same piece placement with only the side to move
flipped negates the score, for every board and move count. -/
theorem c7_perspective_flip (b : Board) (n : ℕ) :
    evaluate_board b.flipSTM n = -evaluate_board b n := by
  have ht : color_totals b.flipSTM n = color_totals b n := rfl
  have hs : (b.flipSTM).sideToMove = b.sideToMove.flip := rfl
  simp only [evaluate_board, ht, hs]
  cases b.sideToMove <;> simp [Color.flip]

/-- Claim C10: the square-control, static-exchange and piece-value helpers
always compute the game phase with a move count of 0, which is always the
Opening phase; hence they agree with their phase-generalized counterparts
instantiated at Opening, independently of the actual half-move count passed
to evaluate_board (none of these helpers receives the move count at all). -/
theorem c10_phase_zero :
    (∀ b : Board, detect_game_phase b 0 = GamePhase.Opening) ∧
    (∀ (b : Board) (sq : ℕ) (c : Color),
      evaluate_square_control b sq c =
        evaluate_square_control_phase b sq c GamePhase.Opening) ∧
    (∀ (b : Board) (sq : ℕ) (c : Color),
      static_exchange_evaluation b sq c =
        static_exchange_evaluation_phase b sq c GamePhase.Opening) ∧
    (∀ (b : Board) (sq : ℕ),
      get_piece_value_on_square b sq =
        get_piece_value_on_square_phase b sq GamePhase.Opening) :=
  ⟨fun _ => rfl, fun _ _ _ => rfl, fun _ _ _ => rfl, fun _ _ => rfl⟩

/-- Claim C4: the time allocation agrees with the spec formula for every
clock state and side (non-positive remainder after the 100 ms safeguard
gives round(increment times 0.8) for a positive increment and zero
otherwise, else round((remaining - 100) times 0.8 / moves_to_go) with the
default 30), and the two spec examples evaluate to 264 ms and 0 ms. -/
theorem c4_time_allocation :
    (∀ (gt : GameTime) (c : Color),
      calculate_time gt c = calculate_time_spec gt c) ∧
    calculate_time ⟨10000, 10000, 0, 0, none⟩ Color.White = 264 ∧
    calculate_time ⟨50, 50, 0, 0, none⟩ Color.White = 0 := by
  refine ⟨fun gt c => ?_, ?_, ?_⟩
  · cases c <;>
      simp [calculate_time, calculate_time_spec, SAFEGUARD, MAX_USAGE,
        GAME_LENGTH, NO_TIME, show (100.0 : ℚ) = 100 from by norm_num,
        show (Color.White == Color.White) = true from rfl,
        show (Color.Black == Color.White) = false from rfl]
  · norm_num [calculate_time, SAFEGUARD, MAX_USAGE, GAME_LENGTH, round_eq]
    rfl
  · norm_num [calculate_time, SAFEGUARD, MAX_USAGE, GAME_LENGTH, NO_TIME]

/-- Claim C9 counterexample: at a position whose u32 half-move counter is
u32::MAX = 2^32 - 1, a successful make_move wraps the counter to 0 (the
release-build semantics of the Rust += 1): the call returns true but the
counter does not increase by exactly 1 and in fact decreases, refuting the
claim as stated at this input. -/
theorem c9_wrap_counterexample :
    (make_move WServiceA PMax WMoveGood).1 = true ∧
    (make_move WServiceA PMax WMoveGood).2.move_count = 0 ∧
    ¬ (make_move WServiceA PMax WMoveGood).2.move_count =
        PMax.move_count + 1 ∧
    (make_move WServiceA PMax WMoveGood).2.move_count < PMax.move_count := by
  refine ⟨rfl, ?_, ?_, ?_⟩ <;>
    simp [make_move, WServiceA, WMoveGood, PMax, Nat.mod_self]

/-- Claim C9 (amended): make_move leaves the position unchanged and reports
false on a parse failure; on success it reports true, stores the applied
board, and sets the half-move counter to (old + 1) mod 2^32 - an increase by
exactly 1 whenever the counter is below u32::MAX = 2^32 - 1, which is every
state a real game can reach; below that bound the counter never decreases.
At exactly u32::MAX the wrap to 0 is the one decrease
(c9_wrap_counterexample). -/
theorem c9_make_move (S : Service) (pos : Position) (mv : S.MoveStr) :
    (S.parse mv = none → make_move S pos mv = (false, pos)) ∧
    (∀ m, S.parse mv = some m →
      (make_move S pos mv).1 = true ∧
      (make_move S pos mv).2.board = S.apply_move pos.board m ∧
      (make_move S pos mv).2.move_count = (pos.move_count + 1) % 2 ^ 32 ∧
      (pos.move_count < 2 ^ 32 - 1 →
        (make_move S pos mv).2.move_count = pos.move_count + 1)) ∧
    (pos.move_count < 2 ^ 32 - 1 →
      pos.move_count ≤ (make_move S pos mv).2.move_count) := by
  refine ⟨fun h => by simp [make_move, h],
    fun m h => ⟨by simp [make_move, h], by simp [make_move, h],
      by simp [make_move, h], fun hlt => by simp [make_move, h]; omega⟩,
    fun hlt => ?_⟩
  cases h : S.parse mv
  · simp [make_move, h]
  · simp [make_move, h]
    omega

/-- Claim C9 witness: the unparseable string leaves the concrete position
(counter 5, below the wrap bound) untouched, and the parseable string
increments its counter by exactly one. -/
theorem c9_make_move_witness :
    make_move WServiceA WPos WMoveBad = (false, WPos) ∧
    (make_move WServiceA WPos WMoveGood).2.move_count = WPos.move_count + 1 :=
  ⟨(c9_make_move WServiceA WPos WMoveBad).1 (by simp [WServiceA, WMoveBad]),
   (((c9_make_move WServiceA WPos WMoveGood).2.1 WMoveGood
      (by simp [WServiceA, WMoveGood])).2.2.2 (by norm_num [WPos]))⟩

-- Helper facts for the defender-term claim ------------------------------------

lemma evaluate_square_control_defenders (b : Board) (sq : ℕ) (c : Color) :
    (evaluate_square_control b sq c).defenders = [] := by
  simp only [evaluate_square_control, List.foldl_cons, List.foldl_nil]
  simp [apply_ite AttackInfo.defenders]

lemma esc_B0_white :
    evaluate_square_control B0 27 Color.White =
      { attackers := [(Piece.Knight, 27)], defenders := [],
        target_value := get_piece_value_on_square B0 27,
        smallest_attacker := ((3.25 : ℚ) : WithTop ℚ),
        smallest_defender := ⊤ } := by
  have cP : B0.pieces Piece.Pawn &&& B0.color_combined Color.White &&&
      piece_attack_pattern Piece.Pawn 27 Color.White = 0 := by decide
  have cN : B0.pieces Piece.Knight &&& B0.color_combined Color.White &&&
      piece_attack_pattern Piece.Knight 27 Color.White ≠ 0 := by decide
  have cB : B0.pieces Piece.Bishop &&& B0.color_combined Color.White &&&
      piece_attack_pattern Piece.Bishop 27 Color.White = 0 := by decide
  have cR : B0.pieces Piece.Rook &&& B0.color_combined Color.White &&&
      piece_attack_pattern Piece.Rook 27 Color.White = 0 := by decide
  have cQ : B0.pieces Piece.Queen &&& B0.color_combined Color.White &&&
      piece_attack_pattern Piece.Queen 27 Color.White = 0 := by decide
  have hph : detect_game_phase B0 0 = .Opening := rfl
  simp only [evaluate_square_control, List.foldl_cons, List.foldl_nil, hph,
    cP, cN, cB, cR, cQ, ne_eq, not_false_eq_true, not_true_eq_false,
    if_true, if_false, ite_true, ite_false]
  norm_num [get_piece_base_value, KNIGHT_VALUE_OPENING]

lemma esc_B0_black :
    evaluate_square_control B0 27 Color.Black =
      { attackers := [(Piece.Knight, 27)], defenders := [],
        target_value := get_piece_value_on_square B0 27,
        smallest_attacker := ((3.25 : ℚ) : WithTop ℚ),
        smallest_defender := ⊤ } := by
  have cP : B0.pieces Piece.Pawn &&& B0.color_combined Color.Black &&&
      piece_attack_pattern Piece.Pawn 27 Color.Black = 0 := by decide
  have cN : B0.pieces Piece.Knight &&& B0.color_combined Color.Black &&&
      piece_attack_pattern Piece.Knight 27 Color.Black ≠ 0 := by decide
  have cB : B0.pieces Piece.Bishop &&& B0.color_combined Color.Black &&&
      piece_attack_pattern Piece.Bishop 27 Color.Black = 0 := by decide
  have cR : B0.pieces Piece.Rook &&& B0.color_combined Color.Black &&&
      piece_attack_pattern Piece.Rook 27 Color.Black = 0 := by decide
  have cQ : B0.pieces Piece.Queen &&& B0.color_combined Color.Black &&&
      piece_attack_pattern Piece.Queen 27 Color.Black = 0 := by decide
  have hph : detect_game_phase B0 0 = .Opening := rfl
  simp only [evaluate_square_control, List.foldl_cons, List.foldl_nil, hph,
    cP, cN, cB, cR, cQ, ne_eq, not_false_eq_true, not_true_eq_false,
    if_true, if_false, ite_true, ite_false]
  norm_num [get_piece_base_value, KNIGHT_VALUE_OPENING]

lemma gpvos_B0_27 : get_piece_value_on_square B0 27 = 1 := by
  have hfind : [Piece.Queen, .Rook, .Bishop, .Knight, .Pawn].find?
      (fun piece => B0.pieces piece &&& (1 <<< 27) != 0) = some .Pawn := by
    decide
  simp only [get_piece_value_on_square, hfind]
  rw [show get_piece_base_value Piece.Pawn (detect_game_phase B0 0) =
    ((PAWN_VALUE_OPENING : ℚ) : WithTop ℚ) from rfl,
    show WithTop.untop' 0 ((PAWN_VALUE_OPENING : ℚ) : WithTop ℚ) =
      PAWN_VALUE_OPENING from rfl]
  norm_num [PAWN_VALUE_OPENING]

lemma see_B0_white :
    static_exchange_evaluation B0 27 Color.White =
      { gain := 1 - 3.25, exchange_sequence := [(Piece.Knight, 27)] } := by
  have hfind : [Piece.Pawn, .Knight, .Bishop, .Rook, .Queen].find? (fun piece =>
      (B0.pieces piece &&& B0.color_combined Color.White) &&&
        piece_attack_pattern piece 27 Color.White != 0) = some .Knight := by
    decide
  simp only [static_exchange_evaluation, hfind, gpvos_B0_27]
  rw [show get_piece_base_value Piece.Knight (detect_game_phase B0 0) =
    ((KNIGHT_VALUE_OPENING : ℚ) : WithTop ℚ) from rfl,
    show WithTop.untop' 0 ((KNIGHT_VALUE_OPENING : ℚ) : WithTop ℚ) =
      KNIGHT_VALUE_OPENING from rfl]
  norm_num [KNIGHT_VALUE_OPENING]

lemma ea_B0 : evaluate_attacks B0 27 Color.White = -4.2 := by
  simp only [evaluate_attacks, Color.flip, esc_B0_white, esc_B0_black,
    see_B0_white, gpvos_B0_27]
  norm_num [WithTop.untop']

lemma ea_spec_B0 : evaluate_attacks_spec B0 27 Color.White = -4.6 := by
  simp only [evaluate_attacks_spec, Color.flip, esc_B0_white, esc_B0_black,
    see_B0_white, gpvos_B0_27]
  norm_num [WithTop.untop']

/-- Claim C2: the claim states a -0.1 penalty per defender and a flat +0.3
bonus exactly when the target square has no defenders.  In the code the
defenders list of evaluate_square_control is never filled (first conjunct),
so the penalty is never applied and the +0.3 bonus is always included: on
the concrete board B0 the target square d4 is defended by the black knight
(second conjunct, the defense scan finds an attacker of the flipped color),
yet the code scores -4.2 (no penalty, bonus included) where the claimed
formula scores -4.6. -/
theorem c2_defender_terms :
    (∀ (b : Board) (sq : ℕ) (c : Color),
      (evaluate_square_control b sq c).defenders = []) ∧
    (evaluate_square_control B0 27 Color.Black).attackers ≠ [] ∧
    evaluate_attacks B0 27 Color.White = -4.2 ∧
    evaluate_attacks_spec B0 27 Color.White = -4.6 := by
  refine ⟨evaluate_square_control_defenders, ?_, ea_B0, ea_spec_B0⟩
  rw [esc_B0_black]
  simp

/-- Claim C5: with the stop flag unset, depth 0 returns exactly the static
evaluation with no move; at any depth of at least 1 with no legal moves the
search returns the mate score -10000 + depth with no move when the side to
move is in check (a score below -9000 for every depth the program can reach,
here bounded by 999) and exactly 0.0 with no move when not in check. -/
theorem c5_terminal_contract (S : Service) (pos : Position) (d : ℕ)
    (a b : XQ) (maxi : Bool) :
    alpha_beta_search S false 0 pos a b maxi =
      (ofQ (evaluate_board pos.board pos.move_count), none) ∧
    (S.legal_moves pos.board = [] →
      (S.checkers pos.board ≠ 0 →
        alpha_beta_search S false (d + 1) pos a b maxi =
          (ofQ (-10000 + ((d + 1 : ℕ) : ℚ)), none) ∧
        (d ≤ 998 → ofQ (-10000 + ((d + 1 : ℕ) : ℚ)) < ofQ (-9000))) ∧
      (S.checkers pos.board = 0 →
        alpha_beta_search S false (d + 1) pos a b maxi = (ofQ 0, none))) := by
  refine ⟨rfl, fun hleg => ⟨fun hchk => ⟨?_, fun hd => ?_⟩, fun hchk => ?_⟩⟩
  · have hmv : order_moves S pos (S.legal_moves pos.board) = [] := by
      rw [hleg]; rfl
    simp only [alpha_beta_search, Bool.false_eq_true, if_false, hmv,
      List.isEmpty_nil, if_true]
    rw [if_pos hchk]
  · rw [ofQ_lt_ofQ]
    have hc : ((d + 1 : ℕ) : ℚ) ≤ 999 := by exact_mod_cast Nat.succ_le_succ hd
    linarith
  · have hmv : order_moves S pos (S.legal_moves pos.board) = [] := by
      rw [hleg]; rfl
    simp only [alpha_beta_search, Bool.false_eq_true, if_false, hmv,
      List.isEmpty_nil, if_true]
    rw [if_neg (by simp [hchk])]

/-- Claim C5 witness: on a concrete service with no legal moves and the side
to move in check, depth 1 returns the mate score -9999 with no move, and
that score is below -9000. -/
theorem c5_terminal_contract_witness :
    alpha_beta_search WServiceB false 1 WPos ⊥ ⊤ true =
      (ofQ (-10000 + ((1 : ℕ) : ℚ)), none) ∧
    ofQ (-10000 + ((1 : ℕ) : ℚ)) < ofQ (-9000) := by
  have h := ((c5_terminal_contract WServiceB WPos 0 ⊥ ⊤ true).2 rfl).1
    (by simp [WServiceB])
  exact ⟨h.1, h.2 (by norm_num)⟩

/-- Claim C8: with the stop flag unset and the full window (alpha the bottom
element, beta the top element), the alpha-beta score at every depth equals
the score of the unpruned full-window minimax over the same move generation,
move application and leaf evaluation. -/
theorem c8_alpha_beta_minimax (S : Service) (d : ℕ) (pos : Position)
    (maxi : Bool) :
    (alpha_beta_search S false d pos ⊥ ⊤ maxi).1 =
      minimax_search S d pos maxi :=
  km_full S d pos maxi

-- Helper lemmas for the pick_move claim ---------------------------------------

lemma ofQ_ne_bot (q : ℚ) : ofQ q ≠ ⊥ := WithBot.coe_ne_bot

lemma ofQ_ne_top (q : ℚ) : ofQ q ≠ ⊤ := by
  intro h
  exact WithTop.coe_ne_top (WithBot.coe_inj.mp h)

lemma ab_loop_snd_mem (S : Service)
    (child : Position → XQ → XQ → Bool → XQ × Option S.MoveStr) (maxi : Bool) :
    ∀ (l : List S.MoveStr) (pos : Position) (a b best : XQ)
      (bm : Option S.MoveStr),
      (ab_loop S child maxi l pos a b best bm).2 = bm ∨
      ∃ mv ∈ l, (ab_loop S child maxi l pos a b best bm).2 = some mv := by
  intro l
  induction l with
  | nil => intro pos a b best bm; left; rfl
  | cons mv rest ih =>
      intro pos a b best bm
      simp only [ab_loop]
      rcases hm : make_move S pos mv with ⟨ok, newpos⟩
      cases ok
      · rcases ih pos a b best bm with h | ⟨mv2, hmem, h⟩
        · left; exact h
        · right; exact ⟨mv2, List.mem_cons_of_mem mv hmem, h⟩
      · cases maxi
        · simp only [Bool.false_eq_true, if_false]
          by_cases hup : (child newpos a b (!false)).1 < best
          · rw [if_pos hup]
            by_cases hcut : min b (child newpos a b (!false)).1 ≤ a
            · rw [if_pos hcut]
              right
              exact ⟨mv, List.mem_cons_self mv rest, rfl⟩
            · rw [if_neg hcut]
              rcases ih pos a (min b (child newpos a b (!false)).1)
                  (child newpos a b (!false)).1 (some mv) with h | ⟨mv2, hmem, h⟩
              · right; exact ⟨mv, List.mem_cons_self mv rest, h⟩
              · right; exact ⟨mv2, List.mem_cons_of_mem mv hmem, h⟩
          · rw [if_neg hup]
            by_cases hba : b ≤ a
            · rw [if_pos hba]; left; rfl
            · rw [if_neg hba]
              rcases ih pos a b best bm with h | ⟨mv2, hmem, h⟩
              · left; exact h
              · right; exact ⟨mv2, List.mem_cons_of_mem mv hmem, h⟩
        · simp only [if_true]
          by_cases hup : best < (child newpos a b (!true)).1
          · rw [if_pos hup]
            by_cases hcut : b ≤ max a (child newpos a b (!true)).1
            · rw [if_pos hcut]
              right
              exact ⟨mv, List.mem_cons_self mv rest, rfl⟩
            · rw [if_neg hcut]
              rcases ih pos (max a (child newpos a b (!true)).1) b
                  (child newpos a b (!true)).1 (some mv) with h | ⟨mv2, hmem, h⟩
              · right; exact ⟨mv, List.mem_cons_self mv rest, h⟩
              · right; exact ⟨mv2, List.mem_cons_of_mem mv hmem, h⟩
          · rw [if_neg hup]
            by_cases hba : b ≤ a
            · rw [if_pos hba]; left; rfl
            · rw [if_neg hba]
              rcases ih pos a b best bm with h | ⟨mv2, hmem, h⟩
              · left; exact h
              · right; exact ⟨mv2, List.mem_cons_of_mem mv hmem, h⟩

lemma mm_loop_ofQ (S : Service) (child : Position → Bool → XQ)
    (hchild : ∀ p m, ∃ q : ℚ, child p m = ofQ q) (maxi : Bool) :
    ∀ (l : List S.MoveStr) (pos : Position) (q0 : ℚ),
      ∃ q : ℚ, mm_loop S child maxi l pos (ofQ q0) = ofQ q := by
  intro l
  induction l with
  | nil => intro pos q0; exact ⟨q0, rfl⟩
  | cons mv rest ih =>
      intro pos q0
      simp only [mm_loop]
      rcases hm : make_move S pos mv with ⟨ok, newpos⟩
      cases ok
      · exact ih pos q0
      · obtain ⟨qc, hqc⟩ := hchild newpos (!maxi)
        cases maxi
        · simp only [Bool.false_eq_true, if_false, hqc, min_ofQ]
          exact ih pos (min q0 qc)
        · simp only [if_true, hqc, max_ofQ]
          exact ih pos (max q0 qc)

lemma minimax_one_shape (S : Service) (pos : Position) (maxi : Bool)
    (hrt : ∀ mv ∈ S.legal_moves pos.board, (S.parse mv).isSome)
    (hne : S.legal_moves pos.board ≠ []) :
    ∃ q : ℚ, minimax_search S 1 pos maxi = ofQ q := by
  obtain ⟨mv, rest, hl⟩ := List.exists_cons_of_ne_nil hne
  have hchild : ∀ (p : Position) (m : Bool),
      ∃ q : ℚ, minimax_search S 0 p m = ofQ q :=
    fun p m => ⟨evaluate_board p.board p.move_count, rfl⟩
  simp only [minimax_search]
  rw [if_neg (by simp [List.isEmpty_iff, hne]), hl]
  simp only [mm_loop]
  obtain ⟨m, hmp⟩ := Option.isSome_iff_exists.mp
    (hrt mv (hl ▸ List.mem_cons_self mv rest))
  have hmk : make_move S pos mv =
      (true, ⟨S.apply_move pos.board m, (pos.move_count + 1) % 2 ^ 32⟩) := by
    simp [make_move, hmp]
  rw [hmk]
  cases maxi
  · simp only [Bool.false_eq_true, if_false, Bool.not_false]
    rw [min_eq_right le_top]
    exact mm_loop_ofQ S (minimax_search S 0) hchild false rest pos _
  · simp only [if_true, Bool.not_true]
    rw [max_eq_right bot_le]
    exact mm_loop_ofQ S (minimax_search S 0) hchild true rest pos _

/-- Claim C6: pick_move returns none exactly when the position has no legal
moves; with legal moves present, parse succeeding on every generated move
(the round-trip contract of the external service) and the stop flag unset,
it returns some member of the legal-move set; and with the search
interrupted by the stop flag at every node, the recorded fallback (the first
legal move) is still returned. -/
theorem c6_pick_move (S : Service) (pos : Position) (fuel : ℕ)
    (hrt : ∀ mv ∈ S.legal_moves pos.board, (S.parse mv).isSome)
    (hfuel : 1 ≤ fuel) :
    (pick_move S false fuel pos = none ↔ S.legal_moves pos.board = []) ∧
    (S.legal_moves pos.board ≠ [] →
      ∃ mv, pick_move S false fuel pos = some mv ∧
        mv ∈ S.legal_moves pos.board) ∧
    (S.legal_moves pos.board ≠ [] →
      pick_move S true fuel pos = (S.legal_moves pos.board).head?) := by
  obtain ⟨f, rfl⟩ : ∃ f, fuel = f + 1 :=
    ⟨fuel - 1, (Nat.succ_pred_eq_of_pos hfuel).symm⟩
  by_cases hne : S.legal_moves pos.board = []
  · refine ⟨?_, fun h => absurd hne h, fun h => absurd hne h⟩
    simp [pick_move, hne]
  · have hms : ¬ (order_moves S pos (S.legal_moves pos.board)).isEmpty = true := by
      have hperm := order_moves_perm S pos (S.legal_moves pos.board)
      simp only [List.isEmpty_iff]
      intro h
      exact hne (List.perm_nil.mp (h ▸ hperm).symm)
    obtain ⟨q, hq⟩ : ∃ q, (alpha_beta_search S false 1 pos ⊥ ⊤
        (pos.board.sideToMove == Color.White)).1 = ofQ q := by
      rw [km_full S 1 pos (pos.board.sideToMove == Color.White)]
      exact minimax_one_shape S pos (pos.board.sideToMove == Color.White) hrt hne
    have hnb : ¬ ((alpha_beta_search S false 1 pos ⊥ ⊤
        (pos.board.sideToMove == Color.White)).1 ≤ ⊥) := by
      rw [hq]
      intro h
      exact ofQ_ne_bot q (le_bot_iff.mp h)
    have hnt : ¬ ((⊤ : XQ) ≤ (alpha_beta_search S false 1 pos ⊥ ⊤
        (pos.board.sideToMove == Color.White)).1) := by
      rw [hq]
      intro h
      exact ofQ_ne_top q (top_le_iff.mp h)
    have hbl : (⊥ : XQ) < (alpha_beta_search S false 1 pos ⊥ ⊤
        (pos.board.sideToMove == Color.White)).1 := by
      rw [hq]
      exact bot_lt_ofQ q
    have hpick : pick_move S false (f + 1) pos =
        (if (alpha_beta_search S false 1 pos ⊥ ⊤
              (pos.board.sideToMove == Color.White)).2.isSome ∧
            ((⊥ : XQ) < (alpha_beta_search S false 1 pos ⊥ ⊤
              (pos.board.sideToMove == Color.White)).1 ∨
              ((S.legal_moves pos.board).head?).isNone) then
          (alpha_beta_search S false 1 pos ⊥ ⊤
            (pos.board.sideToMove == Color.White)).2
        else (S.legal_moves pos.board).head?) := by
      simp only [pick_move]
      rw [if_neg (by simp [List.isEmpty_iff, hne])]
      simp only [research_loop]
      rw [if_neg hnb, if_neg hnt]
    have hex : ∃ mv, pick_move S false (f + 1) pos = some mv ∧
        mv ∈ S.legal_moves pos.board := by
      rw [hpick]
      by_cases hsome : (alpha_beta_search S false 1 pos ⊥ ⊤
          (pos.board.sideToMove == Color.White)).2.isSome
      · rw [if_pos ⟨hsome, Or.inl hbl⟩]
        have hab : alpha_beta_search S false 1 pos ⊥ ⊤
            (pos.board.sideToMove == Color.White) =
            ab_loop S (alpha_beta_search S false 0)
              (pos.board.sideToMove == Color.White)
              (order_moves S pos (S.legal_moves pos.board)) pos ⊥ ⊤
              (if (pos.board.sideToMove == Color.White) then ⊥ else ⊤)
              none := by
          simp only [alpha_beta_search, Bool.false_eq_true, if_false]
          rw [if_neg hms]
        rcases ab_loop_snd_mem S (alpha_beta_search S false 0)
            (pos.board.sideToMove == Color.White)
            (order_moves S pos (S.legal_moves pos.board)) pos ⊥ ⊤
            (if (pos.board.sideToMove == Color.White) then ⊥ else ⊤)
            none with h | ⟨mv, hmem, h⟩
        · rw [hab, h] at hsome
          simp at hsome
        · exact ⟨mv, by rw [hab, h],
            ((order_moves_perm S pos _).mem_iff).mp hmem⟩
      · rw [if_neg (fun hc => hsome hc.1)]
        obtain ⟨mv, rest, hl⟩ := List.exists_cons_of_ne_nil hne
        exact ⟨mv, by rw [hl]; rfl, hl ▸ List.mem_cons_self mv rest⟩
    refine ⟨⟨fun h => ?_, fun h => absurd h hne⟩, fun _ => hex, fun _ => ?_⟩
    · obtain ⟨mv, hm, _⟩ := hex
      rw [h] at hm
      exact absurd hm (by simp)
    · have hr : alpha_beta_search S true 1 pos ⊥ ⊤
          (pos.board.sideToMove == Color.White) =
          (ofQ (evaluate_board pos.board pos.move_count), none) := by
        simp [alpha_beta_search]
      simp only [pick_move]
      rw [if_neg (by simp [List.isEmpty_iff, hne])]
      simp only [research_loop]
      rw [hr]
      rw [if_neg (show ¬ ((ofQ (evaluate_board pos.board pos.move_count),
          (none : Option S.MoveStr)).1 ≤ ⊥) from fun h =>
        ofQ_ne_bot _ (le_bot_iff.mp h))]
      rw [if_neg (show ¬ ((⊤ : XQ) ≤ (ofQ (evaluate_board pos.board
          pos.move_count), (none : Option S.MoveStr)).1) from fun h =>
        ofQ_ne_top _ (top_le_iff.mp h))]
      rw [if_neg (show ¬ ((ofQ (evaluate_board pos.board pos.move_count),
          (none : Option S.MoveStr)).2.isSome ∧ _) from fun hc => by
        simp at hc)]

/-- Claim C6 witness: on the concrete service with the single legal move 1,
pick_move with the stop flag unset returns a member of the legal-move set. -/
theorem c6_pick_move_witness :
    ∃ mv, pick_move WServiceA false 1 WPos = some mv ∧
      mv ∈ WServiceA.legal_moves WPos.board := by
  have hrt : ∀ mv ∈ WServiceA.legal_moves WPos.board,
      (WServiceA.parse mv).isSome := by
    intro mv hm
    simp only [WServiceA] at hm ⊢
    simp only [List.mem_singleton] at hm
    subst hm
    simp
  exact (c6_pick_move WServiceA WPos 1 hrt (le_refl 1)).2.1 (by simp [WServiceA])
